import Mathlib

/-!
Shallow embedding of the MIVES scoring engine
(`logic/math_engine.py`, `logic/data_manager.py`, `logic/tree_utils.py`).

Numeric values are modelled as rationals.  The two partial math library
primitives used by the value function, `math.exp` and `math.pow`, are taken
as parameters of type `ℚ → Option ℚ` resp. `ℚ → ℚ → Option ℚ`: a `none`
result models the `ValueError`/`OverflowError` exceptions that the source
catches, and a `some` result models a normal return.  All other operations
of the translated code are total.
-/

namespace Mives

/-- Final clamp of the value function, `max(0.0, min(1.0, value))`. -/
def clamp01 (v : ℚ) : ℚ := max 0 (min 1 v)

/-- Clamping of the scale parameter, `if C <= 0.0001: C = 0.0001`
(`math_engine.py` lines 29-30). -/
def clampC (C : ℚ) : ℚ := if C ≤ 1 / 10 ^ 4 then 1 / 10 ^ 4 else C

/-- Factor `B` as computed from `phi_max` in `calculate_mives_value`
(`math_engine.py` lines 35-38): fallback `B = 1.0` when
`abs(1.0 - phi_max) < 1e-9`, otherwise `B = 1.0 / (1.0 - phi_max)`. -/
def mives_B (phi_max : ℚ) : ℚ :=
  if |1 - phi_max| < 1 / 10 ^ 9 then 1 else 1 / (1 - phi_max)

/-- Factor `B` as the specification words it: fallback threshold `1e-12`
instead of the source's `1e-9`.  Kept separate for comparison with
`mives_B`. -/
def mives_B_specWords (phi_max : ℚ) : ℚ :=
  if |1 - phi_max| < 1 / 10 ^ 12 then 1 else 1 / (1 - phi_max)

/-- Result of `phi = math.exp(-K * math.pow(dist / C, P))` for the given
distance: `none` models a raised `ValueError`/`OverflowError` in either
call. -/
def mivesPhi (mexp : ℚ → Option ℚ) (mpow : ℚ → ℚ → Option ℚ)
    (dist C K P : ℚ) : Option ℚ :=
  (mpow (dist / C) P).bind fun t => mexp (-K * t)

/-- Shared in-range body of `calculate_mives_value` (lines 29-49): clamp
`C`, compute `B` from the `phi_max` exponential (fallback `1` on an
exception), compute `B * (1 - phi_x)` (fallback `0` on an exception) and
clamp the result to `[0, 1]`. -/
def mivesBody (mexp : ℚ → Option ℚ) (mpow : ℚ → ℚ → Option ℚ)
    (dist_x dist_max C K P : ℚ) : ℚ :=
  let C' := clampC C
  let B := (mivesPhi mexp mpow dist_max C' K P).elim 1 mives_B
  let value := (mivesPhi mexp mpow dist_x C' K P).elim 0 fun phi_x =>
    B * (1 - phi_x)
  clamp01 value

/-- Translation of `MivesLogic.calculate_mives_value`
(`math_engine.py` lines 15-49). -/
def calculate_mives_value (mexp : ℚ → Option ℚ) (mpow : ℚ → ℚ → Option ℚ)
    (x x_sat_0 x_sat_1 C K P : ℚ) : ℚ :=
  let dist_x := |x - x_sat_0|
  let dist_max := |x_sat_1 - x_sat_0|
  if x_sat_1 > x_sat_0 then
    if x ≤ x_sat_0 then 0
    else if x ≥ x_sat_1 then 1
    else mivesBody mexp mpow dist_x dist_max C K P
  else
    if x ≥ x_sat_0 then 0
    else if x ≤ x_sat_1 then 1
    else mivesBody mexp mpow dist_x dist_max C K P

/-! ## Tree data model

A `TreeItem` models a `QTreeWidgetItem` as the engine reads it:
`uid` is `item.data(0, UserRole)`, `name` is `item.text(0)`, `weight` is
the result of parsing `item.text(1).replace('%', '')` as a number
(`none` models a text that `float(...)` rejects), `ty` is `item.text(2)`,
`fdata` models the dict `item.data(1, UserRole) or {}` and `children` the
child items in order. -/

/-- Value-function parameter dict of an indicator item; a `none` field
models an absent dict key (`f_data.get` then falls back to its default). -/
structure FData where
  xmin : Option ℚ
  xmax : Option ℚ
  c : Option ℚ
  k : Option ℚ
  p : Option ℚ
  deriving Repr, DecidableEq

/-- Empty parameter dict (also the result of `item.data(1, UserRole) or {}`
when no dict is attached). -/
def FData.empty : FData := ⟨none, none, none, none, none⟩

/-- Tree node as read from the GUI tree widget. -/
inductive TreeItem where
  | mk (uid : String) (name : String) (weight : Option ℚ) (ty : String)
      (fdata : FData) (children : List TreeItem)

def TreeItem.uid : TreeItem → String
  | .mk u _ _ _ _ _ => u

def TreeItem.name : TreeItem → String
  | .mk _ n _ _ _ _ => n

def TreeItem.weight : TreeItem → Option ℚ
  | .mk _ _ w _ _ _ => w

def TreeItem.ty : TreeItem → String
  | .mk _ _ _ t _ _ => t

def TreeItem.fdata : TreeItem → FData
  | .mk _ _ _ _ f _ => f

def TreeItem.children : TreeItem → List TreeItem
  | .mk _ _ _ _ _ cs => cs

/-! ## Score aggregation (`calculate_tree_scores_from_tree_item`,
`math_engine.py` lines 1292-1319) -/

/-- Weight fraction of a child inside the aggregation loop:
`float(child.text(1).replace('%',''))/100.0`, with the bare `except`
turning a malformed weight into `0.0` (lines 1311-1312). -/
def childWeightFrac (t : TreeItem) : ℚ := ((t.weight).map (· / 100)).getD 0

mutual

/-- Translation of the inner `process` function of
`calculate_tree_scores_from_tree_item`: first component is the returned
score, second component is the sequence of `scores[uid] = ...` insertions
made while processing the item (in insertion order). -/
def process (mexp : ℚ → Option ℚ) (mpow : ℚ → ℚ → Option ℚ)
    (inputs : String → Option ℚ) : TreeItem → ℚ × List (String × ℚ)
  | .mk uid _ _ ty fd cs =>
      if ty = "Indicator" then
        let x0 := fd.xmin.getD 0
        let x1 := fd.xmax.getD 100
        let C := fd.c.getD 100
        let K := fd.k.getD (1 / 10)
        let P := fd.p.getD 1
        let val := (inputs uid).getD x0
        let sat := calculate_mives_value mexp mpow val x0 x1 C K P
        (sat, [(uid, sat)])
      else
        let r := processChildren mexp mpow inputs cs
        let final := if r.2.1 > 0 then r.1 / r.2.1 else 0
        (final, r.2.2 ++ [(uid, final)])

/-- Child loop of `process`, accumulating
`(total_score, total_weight, scores insertions)` left to right. -/
def processChildren (mexp : ℚ → Option ℚ) (mpow : ℚ → ℚ → Option ℚ)
    (inputs : String → Option ℚ) : List TreeItem → ℚ × ℚ × List (String × ℚ)
  | [] => (0, 0, [])
  | c :: rest =>
      let w := childWeightFrac c
      let s := process mexp mpow inputs c
      let r := processChildren mexp mpow inputs rest
      (s.1 * w + r.1, w + r.2.1, s.2 ++ r.2.2)

end

/-- Score returned for one item by the aggregation recursion. -/
def itemScore (mexp : ℚ → Option ℚ) (mpow : ℚ → ℚ → Option ℚ)
    (inputs : String → Option ℚ) (t : TreeItem) : ℚ :=
  (process mexp mpow inputs t).1

/-- Translation of `calculate_tree_scores_from_tree_item` itself: the
`scores` dict built for an optional root item, as its insertion sequence. -/
def calculate_tree_scores_from_tree_item (mexp : ℚ → Option ℚ)
    (mpow : ℚ → ℚ → Option ℚ) (root : Option TreeItem)
    (inputs : String → Option ℚ) : List (String × ℚ) :=
  match root with
  | none => []
  | some t => (process mexp mpow inputs t).2

/-! ## Absolute weight (`calculate_absolute_weight_from_item`,
`math_engine.py` lines 1321-1343) -/

/-- Weight collected for one item of the ancestor chain:
`float(current.text(1).replace('%', '')) / 100.0`, with the
`except (ValueError, AttributeError)` branch appending `1.0`
(lines 1331-1335). -/
def itemWeightFactor (w : Option ℚ) : ℚ := (w.map (· / 100)).getD 1

/-- Translation of `calculate_absolute_weight_from_item`.  The argument is
the chain of parsed `text(1)` weights from the item itself up to and
including the root (the order the `while current` loop collects them);
the function multiplies `weights[:-1]`, i.e. everything except the root. -/
def calculate_absolute_weight_from_item (path : List (Option ℚ)) : ℚ :=
  ((path.map itemWeightFactor).dropLast).prod

/-! ## Weight validation (`data_manager.py` lines 129-151, parsing from
`tree_utils.py` lines 85-103) -/

/-- Translation of `get_local_weight_fast` (`tree_utils.py`): parse
`item.text(1)` with any `%` stripped and divide by `100`; any parse
failure yields `0.0`. -/
def get_local_weight_fast (t : TreeItem) : ℚ := ((t.weight).map (· / 100)).getD 0

/-- Sum accumulated by `validate_weights.check` over the direct children
of an item: `total += get_local_weight_fast(child) * 100.0`. -/
def childPctSum (t : TreeItem) : ℚ :=
  (t.children.map fun c => get_local_weight_fast c * 100).sum

mutual

/-- Translation of `DataManager.validate_weights.check`: violations of the
whole subtree in append order (children left to right first, then the item
itself when it has children and their weight sum is off by more than
`0.1`).  A violation records `item.text(0)` and the observed sum. -/
def validateCheck : TreeItem → List (String × ℚ)
  | .mk uid name w ty fd cs =>
      validateList cs ++
        (if cs.length > 0 ∧ |childPctSum (.mk uid name w ty fd cs) - 100| > 1 / 10
          then [(name, childPctSum (.mk uid name w ty fd cs))] else [])

/-- Loop of `check` over the children, collecting subtree violations in
order. -/
def validateList : List TreeItem → List (String × ℚ)
  | [] => []
  | c :: rest => validateCheck c ++ validateList rest

end

/-- Translation of `DataManager.validate_weights`: run `check` on the top
level item when there is one, else report nothing. -/
def validate_weights : Option TreeItem → List (String × ℚ)
  | none => []
  | some t => validateCheck t

mutual

/-- All nodes of a subtree in post-order (children fully before the node),
the order in which `check` finishes items. -/
def postorderNodes : TreeItem → List TreeItem
  | .mk uid name w ty fd cs => postorderList cs ++ [.mk uid name w ty fd cs]

/-- Post-order nodes of a forest. -/
def postorderList : List TreeItem → List TreeItem
  | [] => []
  | c :: rest => postorderNodes c ++ postorderList rest

end

/-! ## Generic helpers for the Sankey layout translation -/

/-- Replace the element at an index by the image under `f`; out-of-range
indices leave the list unchanged (models `nodes[idx].field = value`). -/
def modifyAt {α : Type} : List α → ℕ → (α → α) → List α
  | [], _, _ => []
  | a :: as, 0, f => f a :: as
  | a :: as, n + 1, f => a :: modifyAt as n f

/-- Insert into a sorted list of depths. -/
def insertSorted (d : ℕ) : List ℕ → List ℕ
  | [] => [d]
  | a :: as => if d ≤ a then d :: a :: as else a :: insertSorted d as

/-- Sorted copy of a list of depth keys (models `sorted(...)` over the
keys of `nodes_by_depth`). -/
def sortKeys (l : List ℕ) : List ℕ := l.foldr insertSorted []

/-- First binding of a key in an association list (Python `dict[k]` /
`k in dict`). -/
def lookupA {α β : Type} [DecidableEq α] : List (α × β) → α → Option β
  | [], _ => none
  | p :: rest, k => if p.1 = k then some p.2 else lookupA rest k

/-- Lookup in an association list with the given default. -/
def lookupD {α β : Type} [DecidableEq α] (l : List (α × β)) (k : α) (d : β) : β :=
  (lookupA l k).getD d

/-- Store a value in an association list, overwriting an existing binding
for the key or appending a new one (models Python dict assignment). -/
def storeA {α β : Type} [DecidableEq α] (l : List (α × β)) (k : α) (v : β) :
    List (α × β) :=
  if l.any fun p => p.1 = k then
    l.map fun p => if p.1 = k then (k, v) else p
  else l ++ [(k, v)]

/-- Round a rational to the nearest integer, ties to even (the rounding of
Python float formatting such as `f"{v:.0f}"`). -/
def roundHalfEven (q : ℚ) : ℤ :=
  let f := ⌊q⌋
  let r := q - f
  if r < 1 / 2 then f
  else if 1 / 2 < r then f + 1
  else if Even f then f else f + 1

/-- Display label of a Sankey node, modelled structurally: the node name
together with the rounded number interpolated into the f-string (`none`
when no number is shown).  Two labels are equal exactly when the formatted
strings agree (node names are assumed not to contain a formatted suffix
themselves). -/
structure SankeyLabel where
  name : String
  shown : Option ℤ
  deriving Repr, DecidableEq

/-- Node record of the native Sankey widget (`NodeData`). -/
structure NodeData where
  id : String
  label : SankeyLabel
  x : ℚ
  y : ℚ
  height : ℚ
  color : String
  deriving Repr, DecidableEq

/-- Link record of the native Sankey widget (`LinkData`). -/
structure LinkData where
  source_id : String
  target_id : String
  value : ℚ
  y_source_offset : ℚ
  y_target_offset : ℚ
  color : String
  deriving Repr, DecidableEq

/-- Result pair of the generators (`SankeyData`). -/
structure SankeyData where
  nodes : List NodeData
  links : List LinkData
  deriving Repr, DecidableEq

/-- Style options read by the generators, with the source defaults. -/
structure SankeyStyle where
  node_color : String := "#27ae60"
  link_color : String := "rgba(180, 180, 180, 0.4)"
  shadow_node_color : String := "rgba(200, 200, 200, 0.3)"
  root_highlight_color : Option String := none
  show_node_weight : Bool := true
  vertical_fill : ℚ := 19 / 20
  pad : ℚ := 15
  deriving Repr

/-! ## Single-layer Sankey generation (`generate_sankey_data`,
`math_engine.py` lines 540-751) -/

/-- Local helper `get_local_weight` of the generators:
`float(item.text(1).replace('%', '')) / 100.0` with a bare `except`
returning `0.0`. -/
def get_local_weight (t : TreeItem) : ℚ := ((t.weight).map (· / 100)).getD 0

/-- Local helper `build_label`: show `f"{name} ({weight_pct:.0f}%)"` when
weights are shown and a percentage is given, else just the name. -/
def build_label (show_w : Bool) (name : String) (weight_pct : Option ℚ) :
    SankeyLabel :=
  match show_w, weight_pct with
  | true, some p => ⟨name, some (roundHalfEven p)⟩
  | _, _ => ⟨name, none⟩

/-- Mutable collections of `generate_sankey_data` while traversing. -/
structure BuildState where
  nodes : List NodeData
  links : List LinkData
  nodesByDepth : List (ℕ × List ℕ)
  uidToIdx : List (SankeyLabel × ℕ)
  maxDepth : ℕ
  deriving Repr

def BuildState.empty : BuildState := ⟨[], [], [], [], 0⟩

/-- Record an index under its depth in `nodes_by_depth` (create the depth
entry when absent, then append). -/
def pushDepth (m : List (ℕ × List ℕ)) (d : ℕ) (i : ℕ) : List (ℕ × List ℕ) :=
  if m.any fun p => p.1 = d then
    m.map fun p => if p.1 = d then (p.1, p.2 ++ [i]) else p
  else m ++ [(d, [i])]

/-- Node creation of `traverse` (lines 616-634): when the label is new,
append a `NodeData` of the given height and record its index under its
depth. -/
def registerNode (style : SankeyStyle) (uid : String) (label : SankeyLabel)
    (aw : ℚ) (depth : ℕ) (st : BuildState) : BuildState :=
  if (lookupA st.uidToIdx label).isNone then
    { st with
      nodes := st.nodes ++ [⟨uid, label, 0, 0, aw, style.node_color⟩]
      uidToIdx := st.uidToIdx ++ [(label, st.nodes.length)]
      nodesByDepth := pushDepth st.nodesByDepth depth st.nodes.length }
  else st

/-- Link creation of `traverse` (lines 638-648): when the item has a
parent, append a link of value `aw` from the parent node. -/
def addParentLink (style : SankeyStyle) (uid : String) (aw : ℚ)
    (parentIdx : Option ℕ) (st : BuildState) : BuildState :=
  match parentIdx with
  | some pidx =>
      { st with
        links := st.links ++
          [⟨(st.nodes.get? pidx).elim "" NodeData.id, uid, aw, 0, 0,
            style.link_color⟩] }
  | none => st

mutual

/-- Translation of the inner `traverse` of `generate_sankey_data`
(lines 594-652). -/
def traverse (style : SankeyStyle) :
    TreeItem → Option ℕ → ℚ → ℕ → BuildState → BuildState
  | t@(.mk uid name _ _ _ cs), parentIdx, parentWeight, depth, st =>
      if uid = "" then st
      else
        let local_weight := get_local_weight t
        let aw0 := parentWeight * local_weight
        let aw := if aw0 < 1 / 1000 then 1 / 1000 else aw0
        let st1 := if depth > st.maxDepth then { st with maxDepth := depth } else st
        let weight_pct : Option ℚ :=
          if depth > 0 then some (local_weight * 100) else none
        let label := build_label style.show_node_weight name weight_pct
        let st2 := registerNode style uid label aw depth st1
        let currentIdx := lookupD st2.uidToIdx label 0
        let st3 := addParentLink style uid aw parentIdx st2
        traverseList style cs (some currentIdx) aw (depth + 1) st3

/-- Loop `for i in range(item.childCount()): traverse(item.child(i), ...)`. -/
def traverseList (style : SankeyStyle) :
    List TreeItem → Option ℕ → ℚ → ℕ → BuildState → BuildState
  | [], _, _, _, st => st
  | c :: rest, pidx, pw, depth, st =>
      traverseList style rest pidx pw depth (traverse style c pidx pw depth st)

end

/-- STEP 1: column positions `x = depth / (num_depths - 1)` (or `0.5`). -/
def assignX (m : List (ℕ × List ℕ)) (numDepths : ℕ) (nodes : List NodeData) :
    List NodeData :=
  m.foldl
    (fun ns p =>
      let xpos : ℚ :=
        if numDepths > 1 then (p.1 : ℚ) / ((numDepths : ℚ) - 1) else 1 / 2
      p.2.foldl (fun ns i => modifyAt ns i fun n => { n with x := xpos }) ns)
    nodes

/-- Height of the node at an index (`nodes[idx].height`; `0` for an index
outside the list, which the generators never produce). -/
def heightAt (nodes : List NodeData) (i : ℕ) : ℚ :=
  (nodes.get? i).elim 0 NodeData.height

/-- Space one depth level asks for: `sum(heights) + gap * (N - 1)`. -/
def levelNeeded (nodes : List NodeData) (gap : ℚ) (idxs : List ℕ) : ℚ :=
  (idxs.map fun i => heightAt nodes i).sum +
    (if idxs.length > 1 then gap * ((idxs.length : ℚ) - 1) else 0)

/-- One step of the STEP 2 loop: raise the running maximum when this
level's requirement exceeds the available height and its ratio beats the
maximum so far. -/
def overflowStep (nodes : List NodeData) (m : List (ℕ × List ℕ))
    (avail gap : ℚ) (acc : ℚ) (d : ℕ) : ℚ :=
  let needed := levelNeeded nodes gap (lookupD m d [])
  if needed > avail then
    if needed / avail > acc then needed / avail else acc
  else acc

/-- STEP 2: maximum overflow ratio `needed / available` over all levels,
starting from `1.0`. -/
def maxOverflow (nodes : List NodeData) (m : List (ℕ × List ℕ))
    (avail gap : ℚ) : ℚ :=
  (sortKeys (m.map Prod.fst)).foldl (overflowStep nodes m avail gap) 1

/-- STEP 4 inner loop: place one level top to bottom from the cursor. -/
def placeLevel (gap : ℚ) (ns : List NodeData) (y0 : ℚ) (idxs : List ℕ) :
    List NodeData :=
  (idxs.foldl
      (fun acc i =>
        let ns' := modifyAt acc.1 i fun n => { n with y := acc.2 }
        (ns', acc.2 + heightAt ns' i + gap))
      (ns, y0)).1

/-- STEP 4: sequential vertical placement per level, cursor starting at the
margin for each level. -/
def assignY (m : List (ℕ × List ℕ)) (vmargin gap : ℚ) (nodes : List NodeData) :
    List NodeData :=
  (sortKeys (m.map Prod.fst)).foldl
    (fun ns d => placeLevel gap ns vmargin (lookupD m d [])) nodes

/-- STEP 6: accumulate outgoing link values per source node so links stack
without overlap. -/
def assignSourceOffsets (links : List LinkData) : List LinkData :=
  (links.foldl
      (fun acc l =>
        let cur := lookupD acc.2 l.source_id 0
        (acc.1 ++ [{ l with y_source_offset := cur }],
          storeA acc.2 l.source_id (cur + l.value)))
      (([] : List LinkData), ([] : List (String × ℚ)))).1

/-- Traversal phase of `generate_sankey_data`: root node creation
(lines 654-677) followed by the child traversal. -/
def buildSankeyState (style : SankeyStyle) (root : Option TreeItem) :
    BuildState :=
  match root with
  | none => BuildState.empty
  | some (.mk uid name _ _ _ cs) =>
      if uid ≠ "" ∧ name ≠ "" then
        let label := build_label style.show_node_weight name none
        let st0 : BuildState :=
          ⟨[⟨uid, label, 0, 0, 1, style.node_color⟩], [], [(0, [0])],
            [(label, 0)], 0⟩
        traverseList style cs (some 0) 1 1 st0
      else BuildState.empty

/-- Geometry phase of `generate_sankey_data` (STEP 1 to STEP 6) applied to
a traversal result. -/
def sankeyGeometry (style : SankeyStyle) (st : BuildState) : SankeyData :=
  if st.nodes.length = 0 then ⟨[], []⟩
  else
    let numDepths := st.maxDepth + 1
    let nodes1 := assignX st.nodesByDepth numDepths st.nodes
    let vmargin := (1 - style.vertical_fill) / 2
    let avail := 1 - 2 * vmargin
    let gap := style.pad / 1000
    let ratio := maxOverflow nodes1 st.nodesByDepth avail gap
    let scale := if ratio > 1 then 1 / ratio else 1
    let nodes2 := nodes1.map fun n => { n with height := n.height * scale }
    let nodes3 := assignY st.nodesByDepth vmargin gap nodes2
    let links1 := st.links.map fun l => { l with value := l.value * scale }
    let links2 := assignSourceOffsets links1
    ⟨nodes3, links2⟩

/-- Translation of `MivesLogic.generate_sankey_data`. -/
def generate_sankey_data (style : SankeyStyle) (root : Option TreeItem) :
    SankeyData :=
  sankeyGeometry style (buildSankeyState style root)

/-- Global scale factor the geometry phase applies
(`global_scale = 1.0 / max_overflow_ratio` or `1.0`). -/
def sankeyGlobalScale (style : SankeyStyle) (st : BuildState) : ℚ :=
  let vmargin := (1 - style.vertical_fill) / 2
  let avail := 1 - 2 * vmargin
  let gap := style.pad / 1000
  let ratio := maxOverflow (assignX st.nodesByDepth (st.maxDepth + 1) st.nodes)
    st.nodesByDepth avail gap
  if ratio > 1 then 1 / ratio else 1

/-! ## Dual-layer Sankey generation (`generate_scenario_sankey_data`,
`math_engine.py` lines 753-1006) -/

/-- Local `build_label` of the scenario generator: show
`f"{name} ({satisfaction_score:.2f})"` when labels are shown; the shown
number is the satisfaction rounded to two decimals, stored in hundredths. -/
def build_label_scenario (show_w : Bool) (name : String) (sat : Option ℚ) :
    SankeyLabel :=
  match show_w, sat with
  | true, some s => ⟨name, some (roundHalfEven (s * 100))⟩
  | _, _ => ⟨name, none⟩

/-- Mutable collections of `generate_scenario_sankey_data` while
traversing. -/
structure ScenState where
  shadowNodes : List NodeData
  filledNodes : List NodeData
  shadowLinks : List LinkData
  filledLinks : List LinkData
  nodesByDepth : List (ℕ × List ℕ)
  uidToIdx : List (SankeyLabel × ℕ)
  nodeSatisfaction : List (ℕ × ℚ)
  maxDepth : ℕ
  deriving Repr

def ScenState.empty : ScenState := ⟨[], [], [], [], [], [], [], 0⟩

/-- Node creation of the scenario `traverse` (lines 828-859): when the
label is new, append the shadow node (height `aw`) and the filled node
(height `aw * satisfaction`) and record the shared index. -/
def registerScenNode (style : SankeyStyle) (uid : String)
    (label : SankeyLabel) (aw satisfaction : ℚ) (depth : ℕ)
    (st : ScenState) : ScenState :=
  if (lookupA st.uidToIdx label).isNone then
    let idx := st.shadowNodes.length
    { st with
      shadowNodes := st.shadowNodes ++
        [⟨uid, ⟨"", none⟩, 0, 0, aw, style.shadow_node_color⟩]
      filledNodes := st.filledNodes ++
        [⟨uid, label, 0, 0, aw * satisfaction, style.node_color⟩]
      uidToIdx := st.uidToIdx ++ [(label, idx)]
      nodeSatisfaction := st.nodeSatisfaction ++ [(idx, satisfaction)]
      nodesByDepth := pushDepth st.nodesByDepth depth idx }
  else st

/-- Link creation of the scenario `traverse` (lines 863-887). -/
def addScenLinks (style : SankeyStyle) (uid : String) (aw : ℚ)
    (parentIdx : Option ℕ) (currentIdx : ℕ) (st : ScenState) : ScenState :=
  match parentIdx with
  | some pidx =>
      let childSat := lookupD st.nodeSatisfaction currentIdx 0
      { st with
        shadowLinks := st.shadowLinks ++
          [⟨(st.shadowNodes.get? pidx).elim "" NodeData.id, uid, aw,
            0, 0, style.shadow_node_color⟩]
        filledLinks := st.filledLinks ++
          [⟨(st.filledNodes.get? pidx).elim "" NodeData.id, uid,
            aw * childSat, 0, 0, style.link_color⟩] }
  | none => st

mutual

/-- Translation of the inner `traverse` of `generate_scenario_sankey_data`
(lines 804-890). -/
def traverseScen (style : SankeyStyle) (scores : String → Option ℚ) :
    TreeItem → Option ℕ → ℚ → ℕ → ScenState → ScenState
  | t@(.mk uid name _ _ _ cs), parentIdx, parentWeight, depth, st =>
      if uid = "" then st
      else
        let local_weight := get_local_weight t
        let aw0 := parentWeight * local_weight
        let aw := if aw0 < 1 / 1000 then 1 / 1000 else aw0
        let st1 := if depth > st.maxDepth then { st with maxDepth := depth } else st
        let satisfaction := (scores uid).getD 0
        let label := build_label_scenario style.show_node_weight name
          (some satisfaction)
        let st2 := registerScenNode style uid label aw satisfaction depth st1
        let currentIdx := lookupD st2.uidToIdx label 0
        let st3 := addScenLinks style uid aw parentIdx currentIdx st2
        traverseScenList style scores cs (some currentIdx) aw (depth + 1) st3

/-- Child loop of the scenario traversal. -/
def traverseScenList (style : SankeyStyle) (scores : String → Option ℚ) :
    List TreeItem → Option ℕ → ℚ → ℕ → ScenState → ScenState
  | [], _, _, _, st => st
  | c :: rest, pidx, pw, depth, st =>
      traverseScenList style scores rest pidx pw depth
        (traverseScen style scores c pidx pw depth st)

end

/-- Traversal phase of `generate_scenario_sankey_data`: root creation
(lines 892-927) followed by the child traversal. -/
def buildScenState (style : SankeyStyle) (scores : String → Option ℚ)
    (root : Option TreeItem) : ScenState :=
  match root with
  | none => ScenState.empty
  | some (.mk uid name _ _ _ cs) =>
      if uid ≠ "" ∧ name ≠ "" then
        let satisfaction := (scores uid).getD 0
        let label := build_label_scenario style.show_node_weight name
          (some satisfaction)
        let st0 : ScenState :=
          ⟨[⟨uid, ⟨"", none⟩, 0, 0, 1, style.shadow_node_color⟩],
            [⟨uid, label, 0, 0, satisfaction,
              style.root_highlight_color.getD style.node_color⟩],
            [], [], [(0, [0])], [(label, 0)], [(0, satisfaction)], 0⟩
        traverseScenList style scores cs (some 0) 1 1 st0
      else ScenState.empty

/-- Vertical placement of one level of the two layers: the shadow node is
placed at the cursor and the filled node is centered inside it via the
offset `(shadow_height - filled_height) / 2` (lines 970-985). -/
def placeLevelScen (gap : ℚ) (sns fns : List NodeData) (y0 : ℚ)
    (idxs : List ℕ) : List NodeData × List NodeData :=
  let r := idxs.foldl
    (fun acc i =>
      let sns' := modifyAt acc.1 i fun n => { n with y := acc.2.2 }
      let sh := heightAt sns' i
      let fh := heightAt acc.2.1 i
      let fns' := modifyAt acc.2.1 i fun n =>
        { n with y := acc.2.2 + (sh - fh) / 2 }
      (sns', fns', acc.2.2 + sh + gap))
    (sns, fns, y0)
  (r.1, r.2.1)

/-- Vertical placement of both layers over all levels. -/
def assignYScen (m : List (ℕ × List ℕ)) (vmargin gap : ℚ)
    (sns fns : List NodeData) : List NodeData × List NodeData :=
  (sortKeys (m.map Prod.fst)).foldl
    (fun acc d => placeLevelScen gap acc.1 acc.2 vmargin (lookupD m d []))
    (sns, fns)

/-- Geometry phase of `generate_scenario_sankey_data` (lines 929-1006):
positions from shadow dimensions, one global scale from shadow heights,
applied to both layers. -/
def scenGeometry (style : SankeyStyle) (st : ScenState) :
    SankeyData × SankeyData :=
  if st.shadowNodes.length = 0 then (⟨[], []⟩, ⟨[], []⟩)
  else
    let numDepths := st.maxDepth + 1
    let sns1 := assignX st.nodesByDepth numDepths st.shadowNodes
    let fns1 := assignX st.nodesByDepth numDepths st.filledNodes
    let vmargin := (1 - style.vertical_fill) / 2
    let avail := 1 - 2 * vmargin
    let gap := style.pad / 1000
    let ratio := maxOverflow sns1 st.nodesByDepth avail gap
    let scale := if ratio > 1 then 1 / ratio else 1
    let sns2 := sns1.map fun n => { n with height := n.height * scale }
    let fns2 := fns1.map fun n => { n with height := n.height * scale }
    let yr := assignYScen st.nodesByDepth vmargin gap sns2 fns2
    let slinks := assignSourceOffsets
      (st.shadowLinks.map fun l => { l with value := l.value * scale })
    let flinks := assignSourceOffsets
      (st.filledLinks.map fun l => { l with value := l.value * scale })
    (⟨yr.1, slinks⟩, ⟨yr.2, flinks⟩)

/-- Translation of `MivesLogic.generate_scenario_sankey_data`. -/
def generate_scenario_sankey_data (style : SankeyStyle)
    (scores : String → Option ℚ) (root : Option TreeItem) :
    SankeyData × SankeyData :=
  scenGeometry style (buildScenState style scores root)

/-- Global scale factor of the scenario geometry, computed from SHADOW
heights only (lines 942-958). -/
def scenGlobalScale (style : SankeyStyle) (st : ScenState) : ℚ :=
  let vmargin := (1 - style.vertical_fill) / 2
  let avail := 1 - 2 * vmargin
  let gap := style.pad / 1000
  let ratio := maxOverflow
    (assignX st.nodesByDepth (st.maxDepth + 1) st.shadowNodes)
    st.nodesByDepth avail gap
  if ratio > 1 then 1 / ratio else 1

/-! ## Auxiliary definitions used by the verification -/

/-- Decision `check` makes for one item: it has children and their weight
sum is off by more than the tolerance `0.1`. -/
def weightViolation (t : TreeItem) : Bool :=
  decide (t.children.length > 0 ∧ |childPctSum t - 100| > 1 / 10)

/-- Violation entry appended for a flagged item. -/
def violationEntry (t : TreeItem) : String × ℚ := (t.name, childPctSum t)

/-- Invariant maintained by the single-layer traversal: depth keys are
unique, at least the root node is present, and every emitted node has
height at least the `0.001` floor. -/
def buildInv (st : BuildState) : Prop :=
  ((st.nodesByDepth.map Prod.fst).Nodup) ∧
  1 ≤ st.nodes.length ∧
  ∀ n ∈ st.nodes, 1 / 1000 ≤ n.height

/-- Invariant maintained by the scenario traversal: depth keys are unique,
the per-depth index lists partition the node indices, the two layers have
the same number of records, and each filled height is bounded by the
matching shadow height. -/
def scenInv (st : ScenState) : Prop :=
  ((st.nodesByDepth.map Prod.fst).Nodup) ∧
  List.Perm ((st.nodesByDepth.map Prod.snd).flatten)
    (List.range st.shadowNodes.length) ∧
  st.filledNodes.length = st.shadowNodes.length ∧
  ∀ i, heightAt st.filledNodes i ≤ heightAt st.shadowNodes i

/-- Relation the claim asserts between the layers: whenever both layers
have a node record at an index, the filled rectangle's vertical center
equals the shadow rectangle's vertical center. -/
def centered (sns fns : List NodeData) (i : ℕ) : Prop :=
  ∀ sn ∈ sns.get? i, ∀ fn ∈ fns.get? i,
    fn.y + fn.height / 2 = sn.y + sn.height / 2

/-- The level loop of the scenario y-placement, over an explicit key
list (proof-structuring view of `assignYScen`). -/
def foldLevels (m : List (ℕ × List ℕ)) (vmargin gap : ℚ) (ks : List ℕ)
    (p : List NodeData × List NodeData) : List NodeData × List NodeData :=
  ks.foldl (fun acc d => placeLevelScen gap acc.1 acc.2 vmargin (lookupD m d []))
    p

/-- Shadow layer after x-assignment and global scaling. -/
def scenScaledShadow (style : SankeyStyle) (st : ScenState) : List NodeData :=
  (assignX st.nodesByDepth (st.maxDepth + 1) st.shadowNodes).map
    fun n => { n with height := n.height * scenGlobalScale style st }

/-- Filled layer after x-assignment and global scaling. -/
def scenScaledFilled (style : SankeyStyle) (st : ScenState) : List NodeData :=
  (assignX st.nodesByDepth (st.maxDepth + 1) st.filledNodes).map
    fun n => { n with height := n.height * scenGlobalScale style st }

/-- Style used by the concrete layout examples: weights hidden in labels,
all other options left at the source defaults. -/
def cexStyle : SankeyStyle := { show_node_weight := false }

/-- Concrete tree for the layout counterexample: a root with two children
whose weight texts are `100`. -/
def cexTree : TreeItem :=
  .mk "r" "Root" (some 100) "Root" FData.empty
    [.mk "a" "A" (some 100) "Requirement" FData.empty [],
      .mk "b" "B" (some 100) "Requirement" FData.empty []]

/-- Concrete tree with a zero-weight child. -/
def zeroTree : TreeItem :=
  .mk "r" "Root" (some 100) "Root" FData.empty
    [.mk "z" "Z" (some 0) "Requirement" FData.empty []]

/-- Concrete root-only tree. -/
def leafTree : TreeItem :=
  .mk "r" "Root" (some 100) "Root" FData.empty []

/-! ## Helper lemmas -/

/-- Induction principle for `TreeItem` giving the hypothesis on every
member of the child list. -/
theorem TreeItem.inductionOn (P : TreeItem → Prop)
    (h : ∀ uid name w ty fd cs, (∀ c ∈ cs, P c) → P (.mk uid name w ty fd cs)) :
    ∀ t, P t
  | .mk uid name w ty fd cs =>
      h uid name w ty fd cs (fun c _ => TreeItem.inductionOn P h c)
decreasing_by
  have := List.sizeOf_lt_of_mem (show c ∈ cs by assumption)
  simp only [TreeItem.mk.sizeOf_spec]
  omega

theorem clamp01_nonneg (v : ℚ) : 0 ≤ clamp01 v := le_max_left 0 _

theorem clamp01_le_one (v : ℚ) : clamp01 v ≤ 1 := by
  unfold clamp01
  exact max_le (by norm_num) (min_le_left 1 v)

/-- The child loop of `process` accumulates exactly the weighted score sum,
the weight sum and the concatenated score insertions. -/
theorem processChildren_eq (mexp : ℚ → Option ℚ) (mpow : ℚ → ℚ → Option ℚ)
    (inputs : String → Option ℚ) (cs : List TreeItem) :
    processChildren mexp mpow inputs cs =
      ((cs.map fun c =>
          (process mexp mpow inputs c).1 * childWeightFrac c).sum,
        (cs.map childWeightFrac).sum,
        (cs.map fun c => (process mexp mpow inputs c).2).flatten) := by
  induction cs with
  | nil => simp [processChildren]
  | cons c rest ih => simp [processChildren, ih]

/-- Unfolding of the aggregation recursion at a non-indicator node. -/
theorem process_nonIndicator (mexp : ℚ → Option ℚ) (mpow : ℚ → ℚ → Option ℚ)
    (inputs : String → Option ℚ) (uid name : String) (w : Option ℚ)
    (ty : String) (fd : FData) (cs : List TreeItem) (hty : ty ≠ "Indicator") :
    process mexp mpow inputs (.mk uid name w ty fd cs) =
      (if (cs.map childWeightFrac).sum > 0 then
          (cs.map fun c =>
            (process mexp mpow inputs c).1 * childWeightFrac c).sum /
            (cs.map childWeightFrac).sum
        else 0,
        (cs.map fun c => (process mexp mpow inputs c).2).flatten ++
          [(uid,
            if (cs.map childWeightFrac).sum > 0 then
              (cs.map fun c =>
                (process mexp mpow inputs c).1 * childWeightFrac c).sum /
                (cs.map childWeightFrac).sum
            else 0)]) := by
  rw [process]
  simp only [hty, if_false, processChildren_eq]

/-! ## Claim theorems: value function -/

/-- C2: with `x_sat_1 > x_sat_0` (increasing direction) the value function
returns exactly `0` for `x ≤ x_sat_0` and exactly `1` for `x ≥ x_sat_1`;
with `x_sat_1 < x_sat_0` (decreasing direction) it returns exactly `0` for
`x ≥ x_sat_0` and exactly `1` for `x ≤ x_sat_1` — in each case for every
model of `exp`/`pow`, i.e. before any exponential is consulted. -/
theorem mives_value_saturation (mexp : ℚ → Option ℚ)
    (mpow : ℚ → ℚ → Option ℚ) (x x0 x1 C K P : ℚ) :
    (x1 > x0 →
      (x ≤ x0 → calculate_mives_value mexp mpow x x0 x1 C K P = 0) ∧
      (x ≥ x1 → calculate_mives_value mexp mpow x x0 x1 C K P = 1)) ∧
    (x1 < x0 →
      (x ≥ x0 → calculate_mives_value mexp mpow x x0 x1 C K P = 0) ∧
      (x ≤ x1 → calculate_mives_value mexp mpow x x0 x1 C K P = 1)) := by
  unfold calculate_mives_value
  constructor
  · intro hdir
    refine ⟨fun hx => by simp [hdir, hx], fun hx => ?_⟩
    have hnle : ¬x ≤ x0 := by
      simp only [not_le]
      calc x0 < x1 := hdir
        _ ≤ x := hx
    simp [hdir, hx, hnle]
  · intro hdir
    have hnd : ¬x1 > x0 := by
      simp only [not_lt]
      exact le_of_lt hdir
    refine ⟨fun hx => by simp [hnd, hx], fun hx => ?_⟩
    have hng : ¬x ≥ x0 := by
      simp only [ge_iff_le, not_le]
      calc x ≤ x1 := hx
        _ < x0 := hdir
    simp [hnd, hx, hng]

/-- Witness for C2 at the concrete saturated inputs of the test suite. -/
theorem mives_value_saturation_witness :
    calculate_mives_value (fun _ => none) (fun _ _ => none) 0 1 2 1 1 1 = 0 ∧
    calculate_mives_value (fun _ => none) (fun _ _ => none) 3 1 2 1 1 1 = 1 ∧
    calculate_mives_value (fun _ => none) (fun _ _ => none) 3 2 1 1 1 1 = 0 ∧
    calculate_mives_value (fun _ => none) (fun _ _ => none) 0 2 1 1 1 1 = 1 :=
  ⟨((mives_value_saturation _ _ 0 1 2 1 1 1).1 (by norm_num)).1 (by norm_num),
    ((mives_value_saturation _ _ 3 1 2 1 1 1).1 (by norm_num)).2 (by norm_num),
    ((mives_value_saturation _ _ 3 2 1 1 1 1).2 (by norm_num)).1 (by norm_num),
    ((mives_value_saturation _ _ 0 2 1 1 1 1).2 (by norm_num)).2 (by norm_num)⟩

/-- C3: the value function is total (each exception branch of the source is
a value in the model) and its result lies in `[0, 1]` for every input and
every behaviour of the `exp`/`pow` primitives — in particular for a
degenerate range `x_sat_0 = x_sat_1` and for arbitrarily extreme `C`, `K`,
`P`. -/
theorem mives_value_in_unit_interval (mexp : ℚ → Option ℚ)
    (mpow : ℚ → ℚ → Option ℚ) (x x0 x1 C K P : ℚ) :
    0 ≤ calculate_mives_value mexp mpow x x0 x1 C K P ∧
    calculate_mives_value mexp mpow x x0 x1 C K P ≤ 1 := by
  have hb0 : ∀ dx dm : ℚ, 0 ≤ mivesBody mexp mpow dx dm C K P :=
    fun _ _ => clamp01_nonneg _
  have hb1 : ∀ dx dm : ℚ, mivesBody mexp mpow dx dm C K P ≤ 1 :=
    fun _ _ => clamp01_le_one _
  unfold calculate_mives_value
  by_cases hd : x1 > x0
  · by_cases ha : x ≤ x0
    · norm_num [hd, ha]
    · by_cases hc : x ≥ x1
      · norm_num [hd, ha, hc]
      · simp only [hd, ha, hc, if_true, if_false]
        exact ⟨hb0 _ _, hb1 _ _⟩
  · by_cases ha : x ≥ x0
    · norm_num [hd, ha]
    · by_cases hc : x ≤ x1
      · norm_num [hd, ha, hc]
      · simp only [hd, ha, hc, if_true, if_false]
        exact ⟨hb0 _ _, hb1 _ _⟩

/-- C4 counterexample: at `phi_max = 1 - 1e-10` the source's `B` fallback
(threshold `1e-9`, lines 35-36 of `math_engine.py`) fires, while the
claimed threshold `1e-12` does not, so the claimed `B = 1/(1 - phi_max)`
differs from the computed `B = 1`. -/
theorem mives_B_threshold_counterexample :
    mives_B (1 - 1 / 10 ^ 10) = 1 ∧
    mives_B_specWords (1 - 1 / 10 ^ 10) = 10 ^ 10 ∧
    mives_B (1 - 1 / 10 ^ 10) ≠ mives_B_specWords (1 - 1 / 10 ^ 10) := by
  have habs : |(1 : ℚ) - (1 - 1 / 10 ^ 10)| = 1 / 10 ^ 10 := by
    rw [show (1 : ℚ) - (1 - 1 / 10 ^ 10) = 1 / 10 ^ 10 by ring]
    exact abs_of_pos (by norm_num)
  have h1 : mives_B (1 - 1 / 10 ^ 10) = 1 := by
    unfold mives_B
    rw [habs, if_pos (by norm_num)]
  have h2 : mives_B_specWords (1 - 1 / 10 ^ 10) = 10 ^ 10 := by
    unfold mives_B_specWords
    rw [habs, if_neg (by norm_num)]
    rw [show (1 : ℚ) - (1 - 1 / 10 ^ 10) = 1 / 10 ^ 10 by ring]
    norm_num
  refine ⟨h1, h2, ?_⟩
  rw [h1, h2]
  norm_num

/-- C4 as amended: in the non-saturated case the value function clamps `C`
to at least `1e-4`, and when both exponentials return normally the result
is `clamp01 (B * (1 - phi_x))` where `B` uses the fallback threshold
`1e-9` (not `1e-12` as the claim stated). -/
theorem mives_value_inrange (mexp : ℚ → Option ℚ) (mpow : ℚ → ℚ → Option ℚ)
    (x x0 x1 C K P phiMax phiX : ℚ)
    (hin : (x0 < x ∧ x < x1) ∨ (x1 < x ∧ x < x0))
    (hmax : mivesPhi mexp mpow |x1 - x0| (clampC C) K P = some phiMax)
    (hx : mivesPhi mexp mpow |x - x0| (clampC C) K P = some phiX) :
    1 / 10 ^ 4 ≤ clampC C ∧
    calculate_mives_value mexp mpow x x0 x1 C K P =
      clamp01 ((if |1 - phiMax| < 1 / 10 ^ 9 then 1 else 1 / (1 - phiMax)) *
        (1 - phiX)) := by
  constructor
  · unfold clampC
    split_ifs with h
    · norm_num
    · exact le_of_lt (not_le.mp h)
  · rcases hin with ⟨h1, h2⟩ | ⟨h1, h2⟩
    · have hd : x1 > x0 := lt_trans h1 h2
      have hn1 : ¬x ≤ x0 := not_le.mpr h1
      have hn2 : ¬x ≥ x1 := not_le.mpr h2
      simp only [calculate_mives_value, hd, if_true, hn1, if_false, hn2,
        mivesBody, hmax, hx, Option.elim, mives_B]
    · have hd : ¬x1 > x0 := not_lt.mpr (le_of_lt (lt_trans h1 h2))
      have hn1 : ¬x ≥ x0 := not_le.mpr h2
      have hn2 : ¬x ≤ x1 := not_le.mpr h1
      simp only [calculate_mives_value, hd, if_false, hn1, hn2,
        mivesBody, hmax, hx, Option.elim, mives_B]

/-- Witness for C4 as amended, with a concrete successful `exp`/`pow`
model. -/
theorem mives_value_inrange_witness :
    1 / 10 ^ 4 ≤ clampC 1 ∧
    calculate_mives_value (fun _ => some (1 / 2)) (fun _ _ => some 1)
        (3 / 2) 1 2 1 1 1 =
      clamp01 ((if |1 - (1 / 2 : ℚ)| < 1 / 10 ^ 9 then 1
          else 1 / (1 - (1 / 2 : ℚ))) * (1 - 1 / 2)) :=
  mives_value_inrange _ _ _ _ _ _ _ _ _ _
    (Or.inl ⟨by norm_num, by norm_num⟩) (by simp [mivesPhi]) (by simp [mivesPhi])

/-! ## Claim theorems: aggregation and absolute weight -/

/-- C1: at every non-Indicator node the recorded score is the weighted sum
of the child scores divided by the realized weight sum when that sum is
positive, and `0` otherwise; in particular a node over two children of
local weights `60` and `40` scores `0.6 * s1 + 0.4 * s2`. -/
theorem aggregation_weighted_average (mexp : ℚ → Option ℚ)
    (mpow : ℚ → ℚ → Option ℚ) (inputs : String → Option ℚ)
    (uid name : String) (w : Option ℚ) (ty : String) (fd : FData)
    (cs : List TreeItem) (c1 c2 : TreeItem) (hty : ty ≠ "Indicator")
    (h1 : c1.weight = some 60) (h2 : c2.weight = some 40) :
    (itemScore mexp mpow inputs (.mk uid name w ty fd cs) =
      if (cs.map childWeightFrac).sum > 0 then
        (cs.map fun c =>
          itemScore mexp mpow inputs c * childWeightFrac c).sum /
          (cs.map childWeightFrac).sum
      else 0) ∧
    itemScore mexp mpow inputs (.mk uid name w ty fd [c1, c2]) =
      6 / 10 * itemScore mexp mpow inputs c1 +
        4 / 10 * itemScore mexp mpow inputs c2 := by
  constructor
  · unfold itemScore
    rw [process_nonIndicator mexp mpow inputs uid name w ty fd cs hty]
  · unfold itemScore
    rw [process_nonIndicator mexp mpow inputs uid name w ty fd [c1, c2] hty]
    simp only [List.map_cons, List.map_nil, List.sum_cons, List.sum_nil,
      childWeightFrac, h1, h2, Option.map_some, Option.getD_some]
    norm_num
    ring

/-- Witness for C1 on a concrete 60/40 tree. -/
theorem aggregation_weighted_average_witness :
    (itemScore (fun _ => none) (fun _ _ => none) (fun _ => none)
        (.mk "r" "Root" (some 100) "Root" FData.empty []) =
      if (([] : List TreeItem).map childWeightFrac).sum > 0 then
        (([] : List TreeItem).map fun c =>
          itemScore (fun _ => none) (fun _ _ => none) (fun _ => none) c *
            childWeightFrac c).sum /
          (([] : List TreeItem).map childWeightFrac).sum
      else 0) ∧
    itemScore (fun _ => none) (fun _ _ => none) (fun _ => none)
        (.mk "r" "Root" (some 100) "Root" FData.empty
          [.mk "a" "A" (some 60) "Requirement" FData.empty [],
            .mk "b" "B" (some 40) "Requirement" FData.empty []]) =
      6 / 10 * itemScore (fun _ => none) (fun _ _ => none) (fun _ => none)
          (.mk "a" "A" (some 60) "Requirement" FData.empty []) +
        4 / 10 * itemScore (fun _ => none) (fun _ _ => none) (fun _ => none)
          (.mk "b" "B" (some 40) "Requirement" FData.empty []) :=
  aggregation_weighted_average _ _ _ "r" "Root" (some 100) "Root"
    FData.empty [] _ _ (by simp) rfl rfl

/-- C5 counterexample: a node whose weight text does not parse, sitting
directly under the root, gets absolute weight `1` (the
`except` branch of `calculate_absolute_weight_from_item` appends `1.0`),
not `0` as the claim asserts for all derived computations. -/
theorem absolute_weight_malformed_counterexample :
    calculate_absolute_weight_from_item [none, some 100] = 1 ∧
    calculate_absolute_weight_from_item [none, some 100] ≠ 0 := by
  constructor <;>
    simp [calculate_absolute_weight_from_item, itemWeightFactor]

/-- C5 as amended: a malformed weight is treated as weight `0` in score
aggregation — the child is silently excluded and the parent score is
unchanged — while the absolute-weight computation treats it as the neutral
fraction `1` (same as a parsed `100`); neither computation aborts. -/
theorem malformed_weight_amended (mexp : ℚ → Option ℚ)
    (mpow : ℚ → ℚ → Option ℚ) (inputs : String → Option ℚ)
    (uid name : String) (w : Option ℚ) (ty : String) (fd : FData)
    (bad : TreeItem) (cs : List TreeItem) (rest : List (Option ℚ))
    (hbad : bad.weight = none) (hty : ty ≠ "Indicator") :
    childWeightFrac bad = 0 ∧
    itemScore mexp mpow inputs (.mk uid name w ty fd (bad :: cs)) =
      itemScore mexp mpow inputs (.mk uid name w ty fd cs) ∧
    calculate_absolute_weight_from_item (none :: rest) =
      calculate_absolute_weight_from_item (some 100 :: rest) := by
  have hfrac : childWeightFrac bad = 0 := by
    simp [childWeightFrac, hbad]
  refine ⟨hfrac, ?_, ?_⟩
  · unfold itemScore
    rw [process_nonIndicator mexp mpow inputs uid name w ty fd (bad :: cs) hty,
      process_nonIndicator mexp mpow inputs uid name w ty fd cs hty]
    simp [hfrac]
  · unfold calculate_absolute_weight_from_item
    simp [itemWeightFactor]

/-- Witness for C5 as amended, on a concrete malformed-weight child. -/
theorem malformed_weight_amended_witness :
    childWeightFrac (.mk "bad" "Bad" none "Criterion" FData.empty []) = 0 ∧
    itemScore (fun _ => none) (fun _ _ => none) (fun _ => none)
        (.mk "r" "Root" (some 100) "Root" FData.empty
          [.mk "bad" "Bad" none "Criterion" FData.empty []]) =
      itemScore (fun _ => none) (fun _ _ => none) (fun _ => none)
        (.mk "r" "Root" (some 100) "Root" FData.empty []) ∧
    calculate_absolute_weight_from_item [none, some 50, some 100] =
      calculate_absolute_weight_from_item [some 100, some 50, some 100] :=
  malformed_weight_amended _ _ _ "r" "Root" (some 100) "Root" FData.empty
    (.mk "bad" "Bad" none "Criterion" FData.empty []) [] [some 50, some 100]
    rfl (by simp)

/-- C6: the absolute weight of a node whose whole ancestor chain parses is
the product of the local-weight fractions of the node and of every
ancestor strictly below the root; in particular a three-level-deep node
under weights `w1`, `w2`, `w3` gets `(w1/100) * (w2/100) * (w3/100)`. -/
theorem absolute_weight_multiplicative (ws : List ℚ) (rootW : Option ℚ)
    (w1 w2 w3 : ℚ) (rootW2 : Option ℚ) :
    calculate_absolute_weight_from_item (ws.map some ++ [rootW]) =
      (ws.map fun v => v / 100).prod ∧
    calculate_absolute_weight_from_item
        [some w3, some w2, some w1, rootW2] =
      w1 / 100 * (w2 / 100) * (w3 / 100) := by
  constructor
  · unfold calculate_absolute_weight_from_item
    simp only [List.map_append, List.map_cons, List.map_nil, List.map_map]
    rw [List.dropLast_concat]
    simp [itemWeightFactor, Function.comp_def]
  · unfold calculate_absolute_weight_from_item
    simp [itemWeightFactor]
    ring

/-! ## Claim theorems: weight validator -/

theorem validateList_eq_filter (cs : List TreeItem)
    (ih : ∀ c ∈ cs, validateCheck c =
      ((postorderNodes c).filter weightViolation).map violationEntry) :
    validateList cs =
      ((postorderList cs).filter weightViolation).map violationEntry := by
  induction cs with
  | nil => simp [validateList, postorderList]
  | cons c rest ihrest =>
      rw [validateList, postorderList, List.filter_append, List.map_append,
        ih c (List.mem_cons_self c rest),
        ihrest fun d hd => ih d (List.mem_cons_of_mem c hd)]

/-- Structural description of `check`: it emits exactly one violation per
post-order node that has children and an off-by-more-than-`0.1` weight
sum, labelled with the node name and the observed sum. -/
theorem validateCheck_eq_filter (t : TreeItem) :
    validateCheck t =
      ((postorderNodes t).filter weightViolation).map violationEntry := by
  induction t using TreeItem.inductionOn with
  | _ uid name w ty fd cs ih =>
      rw [validateCheck, postorderNodes, List.filter_append, List.map_append,
        validateList_eq_filter cs ih]
      congr 1
      by_cases hviol :
          cs.length > 0 ∧ |childPctSum (.mk uid name w ty fd cs) - 100| > 1 / 10
      · rw [if_pos hviol]
        have hb : weightViolation (.mk uid name w ty fd cs) = true := by
          simp only [weightViolation, TreeItem.children, decide_eq_true_eq]
          exact hviol
        simp [List.filter_cons, hb, violationEntry, TreeItem.name]
      · rw [if_neg hviol]
        have hb : weightViolation (.mk uid name w ty fd cs) = false := by
          simp only [weightViolation, TreeItem.children,
            decide_eq_false_iff_not]
          exact hviol
        simp [List.filter_cons, hb]

/-- C7: the validator reports exactly one violation — naming the node and
its observed children weight sum — for every node (at any level) that has
children whose percentage sum is off from `100` by more than `0.1`; leaf
nodes are never flagged, and a tree whose internal nodes all sum to
exactly `100` yields no violations. -/
theorem validator_reports_violations (root : TreeItem)
    (hall : ∀ s ∈ postorderNodes root, s.children ≠ [] → childPctSum s = 100) :
    (∀ t : TreeItem, validate_weights (some t) =
      ((postorderNodes t).filter weightViolation).map violationEntry) ∧
    validate_weights (some root) = [] := by
  refine ⟨fun t => validateCheck_eq_filter t, ?_⟩
  rw [show validate_weights (some root) = validateCheck root from rfl,
    validateCheck_eq_filter root]
  have hnone : ∀ s ∈ postorderNodes root, ¬(weightViolation s = true) := by
    intro s hs
    simp only [weightViolation, decide_eq_true_eq, not_and, not_lt]
    intro hlen
    have hne : s.children ≠ [] := by
      intro hnil
      rw [hnil] at hlen
      simp at hlen
    rw [hall s hs hne]
    norm_num
  rw [List.filter_eq_nil_iff.mpr hnone, List.map_nil]

/-- Witness for C7 on a concrete balanced 60/40 tree. -/
theorem validator_reports_violations_witness :
    (∀ t : TreeItem, validate_weights (some t) =
      ((postorderNodes t).filter weightViolation).map violationEntry) ∧
    validate_weights (some (.mk "r" "Root" (some 100) "Root" FData.empty
      [.mk "a" "A" (some 60) "Requirement" FData.empty [],
        .mk "b" "B" (some 40) "Requirement" FData.empty []])) = [] := by
  refine validator_reports_violations _ ?_
  intro s hs
  simp only [postorderNodes, postorderList, List.append_nil, List.nil_append,
    List.cons_append, List.mem_cons, List.not_mem_nil, or_false] at hs
  rcases hs with rfl | rfl | rfl
  · intro h
    simp [TreeItem.children] at h
  · intro h
    simp [TreeItem.children] at h
  · intro _
    simp only [childPctSum, TreeItem.children, List.map_cons, List.map_nil,
      List.sum_cons, List.sum_nil, get_local_weight_fast, TreeItem.weight,
      Option.map_some, Option.getD_some]
    norm_num

/-! ## Layout helper lemmas -/

theorem modifyAt_length {α : Type} (l : List α) (i : ℕ) (f : α → α) :
    (modifyAt l i f).length = l.length := by
  induction l generalizing i with
  | nil => rfl
  | cons a as ih =>
      cases i with
      | zero => rfl
      | succ n => simp [modifyAt, ih]

theorem get?_modifyAt {α : Type} (l : List α) (i j : ℕ) (f : α → α) :
    (modifyAt l i f).get? j =
      if i = j then (l.get? j).map f else l.get? j := by
  induction l generalizing i j with
  | nil => simp [modifyAt]
  | cons a as ih =>
      cases i with
      | zero =>
          cases j with
          | zero => simp [modifyAt]
          | succ m => simp [modifyAt]
      | succ n =>
          cases j with
          | zero => simp [modifyAt]
          | succ m =>
              simp only [modifyAt, List.get?_cons_succ, ih]
              by_cases h : n = m
              · simp [h]
              · simp [h, fun hc => h (Nat.succ_injective hc)]

theorem foldl_preserve {α β : Type} (P : β → Prop) (f : β → α → β)
    (h : ∀ b a, P b → P (f b a)) :
    ∀ (l : List α) (b : β), P b → P (l.foldl f b)
  | [], _, hb => hb
  | a :: as, b, hb => foldl_preserve P f h as (f b a) (h b a hb)

theorem insertSorted_perm (d : ℕ) (l : List ℕ) :
    List.Perm (insertSorted d l) (d :: l) := by
  induction l with
  | nil => simp [insertSorted]
  | cons a as ih =>
      unfold insertSorted
      split_ifs
      · exact List.Perm.refl _
      · exact (List.Perm.cons a ih).trans (List.Perm.swap d a as)

theorem sortKeys_perm (l : List ℕ) : List.Perm (sortKeys l) l := by
  induction l with
  | nil => exact List.Perm.refl _
  | cons a as ih =>
      unfold sortKeys
      exact (insertSorted_perm a (as.foldr insertSorted [])).trans
        (List.Perm.cons a ih)

theorem mem_sortKeys (d : ℕ) (l : List ℕ) : d ∈ sortKeys l ↔ d ∈ l :=
  (sortKeys_perm l).mem_iff

theorem lookupD_eq_of_nodup {β : Type} (m : List (ℕ × β)) (d : ℕ) (idxs : β)
    (dflt : β) (hn : (m.map Prod.fst).Nodup) (hmem : (d, idxs) ∈ m) :
    lookupD m d dflt = idxs := by
  induction m with
  | nil => cases hmem
  | cons p rest ih =>
      rw [List.map_cons, List.nodup_cons] at hn
      rcases List.mem_cons.mp hmem with rfl | hmem'
      · simp [lookupD, lookupA]
      · have hne : ¬p.1 = d := by
          intro heq
          exact hn.1 (heq ▸ List.mem_map.mpr ⟨(d, idxs), hmem', rfl⟩)
        have := ih hn.2 hmem'
        simpa [lookupD, lookupA, hne] using this

theorem heightAt_modifyAt (ns : List NodeData) (i j : ℕ)
    (f : NodeData → NodeData) (hf : ∀ n, (f n).height = n.height) :
    heightAt (modifyAt ns j f) i = heightAt ns i := by
  unfold heightAt
  rw [get?_modifyAt]
  split_ifs with h
  · cases hget : ns.get? i <;> simp [hget, hf]
  · rfl

theorem assignX_heightAt (m : List (ℕ × List ℕ)) (nd : ℕ)
    (ns : List NodeData) (i : ℕ) :
    heightAt (assignX m nd ns) i = heightAt ns i := by
  unfold assignX
  refine (foldl_preserve
    (fun acc => ∀ k, heightAt acc k = heightAt ns k) _ ?_ m ns fun _ => rfl) i
  intro b p hb
  intro k
  refine ((foldl_preserve
    (fun acc => ∀ k2, heightAt acc k2 = heightAt b k2) _ ?_ p.2 b
    fun _ => rfl) k).trans (hb k)
  intro b2 j hb2 k2
  refine Eq.trans ?_ (hb2 k2)
  exact heightAt_modifyAt _ _ _ _ fun _ => rfl

theorem placeLevel_heightAt (gap : ℚ) (ns : List NodeData) (y0 : ℚ)
    (idxs : List ℕ) (i : ℕ) :
    heightAt (placeLevel gap ns y0 idxs) i = heightAt ns i := by
  unfold placeLevel
  refine (foldl_preserve
    (fun acc : List NodeData × ℚ => ∀ k, heightAt acc.1 k = heightAt ns k)
    _ ?_ idxs (ns, y0) fun _ => rfl) i
  intro b j hb k
  dsimp only
  refine Eq.trans ?_ (hb k)
  exact heightAt_modifyAt _ _ _ _ fun _ => rfl

theorem assignY_heightAt (m : List (ℕ × List ℕ)) (vmargin gap : ℚ)
    (ns : List NodeData) (i : ℕ) :
    heightAt (assignY m vmargin gap ns) i = heightAt ns i := by
  unfold assignY
  refine (foldl_preserve
    (fun acc => ∀ k, heightAt acc k = heightAt ns k) _ ?_
    (sortKeys (m.map Prod.fst)) ns fun _ => rfl) i
  intro b d hb k
  exact (placeLevel_heightAt gap b vmargin (lookupD m d []) k).trans (hb k)

theorem heightAt_scaled (ns : List NodeData) (s : ℚ) (i : ℕ) :
    heightAt (ns.map fun n => { n with height := n.height * s }) i =
      heightAt ns i * s := by
  unfold heightAt
  rw [List.get?_map]
  cases ns.get? i <;> simp

theorem pushDepth_map_noKey (rest : List (ℕ × List ℕ)) (d : ℕ) (i : ℕ)
    (h : ∀ q ∈ rest, ¬q.1 = d) :
    (rest.map fun p => if p.1 = d then (p.1, p.2 ++ [i]) else p) = rest := by
  induction rest with
  | nil => rfl
  | cons q rest2 ih =>
      rw [List.map_cons, if_neg (h q (List.mem_cons_self q rest2)),
        ih fun r hr => h r (List.mem_cons_of_mem q hr)]

theorem pushDepth_keys (m : List (ℕ × List ℕ)) (d : ℕ) (i : ℕ) :
    (pushDepth m d i).map Prod.fst = m.map Prod.fst ∨
    ((pushDepth m d i).map Prod.fst = m.map Prod.fst ++ [d] ∧
      d ∉ m.map Prod.fst) := by
  unfold pushDepth
  split_ifs with h
  · left
    rw [List.map_map]
    apply List.map_congr_left
    intro p _
    by_cases hp : p.1 = d <;> simp [hp]
  · right
    constructor
    · rw [List.map_append]
      rfl
    · intro hd
      rcases List.mem_map.mp hd with ⟨q, hq, hq1⟩
      apply h
      rw [List.any_eq_true]
      exact ⟨q, hq, by simp [hq1]⟩

theorem pushDepth_keys_nodup (m : List (ℕ × List ℕ)) (d : ℕ) (i : ℕ)
    (hn : (m.map Prod.fst).Nodup) :
    ((pushDepth m d i).map Prod.fst).Nodup := by
  rcases pushDepth_keys m d i with h | ⟨h, hd⟩
  · rw [h]; exact hn
  · rw [h, List.nodup_append]
    refine ⟨hn, List.nodup_singleton d, ?_⟩
    intro x hx
    simp only [List.mem_singleton]
    intro hxd
    exact hd (hxd ▸ hx)

theorem floorWeight_ge (aw0 : ℚ) :
    1 / 1000 ≤ if aw0 < 1 / 1000 then 1 / 1000 else aw0 := by
  split_ifs with h
  · norm_num
  · exact not_lt.mp h

theorem buildInv_maxDepth (st : BuildState) (d : ℕ) (h : buildInv st) :
    buildInv { st with maxDepth := d } := h

theorem buildInv_registerNode (style : SankeyStyle) (uid : String)
    (label : SankeyLabel) (aw : ℚ) (depth : ℕ) (st : BuildState)
    (haw : 1 / 1000 ≤ aw) (h : buildInv st) :
    buildInv (registerNode style uid label aw depth st) := by
  unfold registerNode
  rcases h with ⟨h1, h2, h3⟩
  split_ifs
  · refine ⟨pushDepth_keys_nodup _ _ _ h1, ?_, ?_⟩
    · simp only [List.length_append, List.length_cons, List.length_nil]
      omega
    · intro n hn
      rcases List.mem_append.mp hn with hn | hn
      · exact h3 n hn
      · rcases List.mem_singleton.mp hn with rfl
        exact haw
  · exact ⟨h1, h2, h3⟩

theorem buildInv_addParentLink (style : SankeyStyle) (uid : String)
    (aw : ℚ) (parentIdx : Option ℕ) (st : BuildState) (h : buildInv st) :
    buildInv (addParentLink style uid aw parentIdx st) := by
  unfold addParentLink
  rcases parentIdx with _ | pidx
  · exact h
  · exact h

theorem traverse_buildInv (style : SankeyStyle) :
    ∀ t : TreeItem, ∀ pidx pw depth st, buildInv st →
      buildInv (traverse style t pidx pw depth st) := by
  intro t
  induction t using TreeItem.inductionOn with
  | _ uid name w ty fd cs ih =>
      intro pidx pw depth st hst
      rw [traverse]
      by_cases huid : uid = ""
      · simpa [huid] using hst
      · simp only [huid, if_false]
        have hlist : ∀ (cs2 : List TreeItem),
            (∀ c ∈ cs2, ∀ pidx2 pw2 depth2 st2, buildInv st2 →
              buildInv (traverse style c pidx2 pw2 depth2 st2)) →
            ∀ pidx2 pw2 depth2 st2, buildInv st2 →
              buildInv (traverseList style cs2 pidx2 pw2 depth2 st2) := by
          intro cs2 ih2
          induction cs2 with
          | nil => intro _ _ _ st2 h2; simpa [traverseList] using h2
          | cons c rest ihrest =>
              intro pidx2 pw2 depth2 st2 h2
              rw [traverseList]
              exact ihrest (fun dd hd => ih2 dd (List.mem_cons_of_mem c hd))
                _ _ _ _ (ih2 c (List.mem_cons_self c rest) _ _ _ _ h2)
        apply hlist cs ih
        apply buildInv_addParentLink
        apply buildInv_registerNode _ _ _ _ _ _ (floorWeight_ge _)
        split_ifs
        · exact buildInv_maxDepth st depth hst
        · exact hst

theorem traverseList_buildInv (style : SankeyStyle) (cs : List TreeItem) :
    ∀ pidx pw depth st, buildInv st →
      buildInv (traverseList style cs pidx pw depth st) := by
  induction cs with
  | nil => intro _ _ _ st h; simpa [traverseList] using h
  | cons c rest ih =>
      intro pidx pw depth st h
      rw [traverseList]
      exact ih _ _ _ _ (traverse_buildInv style c _ _ _ _ h)

theorem overflowStep_le (nodes : List NodeData) (m : List (ℕ × List ℕ))
    (avail gap acc : ℚ) (d : ℕ) :
    acc ≤ overflowStep nodes m avail gap acc d := by
  simp only [overflowStep]
  split_ifs with h1 h2
  · exact le_of_lt h2
  · exact le_rfl
  · exact le_rfl

theorem foldl_overflowStep_mono (nodes : List NodeData)
    (m : List (ℕ × List ℕ)) (avail gap : ℚ) :
    ∀ (ks : List ℕ) (b : ℚ),
      b ≤ ks.foldl (overflowStep nodes m avail gap) b
  | [], _ => le_rfl
  | k :: ks, b =>
      le_trans (overflowStep_le nodes m avail gap b k)
        (foldl_overflowStep_mono nodes m avail gap ks _)

theorem foldl_overflowStep_ge (nodes : List NodeData)
    (m : List (ℕ × List ℕ)) (avail gap : ℚ) (d : ℕ) (ks : List ℕ)
    (hd : d ∈ ks) (hov : levelNeeded nodes gap (lookupD m d []) > avail) :
    ∀ b : ℚ, levelNeeded nodes gap (lookupD m d []) / avail ≤
      ks.foldl (overflowStep nodes m avail gap) b := by
  induction ks with
  | nil => cases hd
  | cons k ks ih =>
      intro b
      rw [List.foldl_cons]
      rcases List.mem_cons.mp hd with rfl | hd'
      · refine le_trans ?_ (foldl_overflowStep_mono nodes m avail gap ks _)
        unfold overflowStep
        rw [if_pos hov]
        split_ifs with h2
        · exact le_rfl
        · exact not_lt.mp h2
      · exact ih hd' _

theorem maxOverflow_ge_one (nodes : List NodeData) (m : List (ℕ × List ℕ))
    (avail gap : ℚ) : 1 ≤ maxOverflow nodes m avail gap :=
  foldl_overflowStep_mono nodes m avail gap (sortKeys (m.map Prod.fst)) 1

theorem maxOverflow_ge (nodes : List NodeData) (m : List (ℕ × List ℕ))
    (avail gap : ℚ) (d : ℕ) (hd : d ∈ m.map Prod.fst)
    (hov : levelNeeded nodes gap (lookupD m d []) > avail) :
    levelNeeded nodes gap (lookupD m d []) / avail ≤
      maxOverflow nodes m avail gap :=
  foldl_overflowStep_ge nodes m avail gap d _
    ((mem_sortKeys d _).mpr hd) hov 1

theorem sum_map_heights_mul (l : List ℕ) (f : ℕ → ℚ) (r : ℚ) :
    (l.map fun i => f i * r).sum = (l.map f).sum * r := by
  induction l with
  | nil => simp
  | cons a as ih =>
      simp only [List.map_cons, List.sum_cons, ih]
      ring

/-- The traversal phase leaves either the empty state (no root or a root
failing the `uid and name` guard) or a state satisfying the traversal
invariant. -/
theorem buildSankeyState_inv (style : SankeyStyle) (root : Option TreeItem) :
    buildSankeyState style root = BuildState.empty ∨
    buildInv (buildSankeyState style root) := by
  unfold buildSankeyState
  rcases root with _ | t
  · exact Or.inl rfl
  · rcases t with ⟨uid, name, w, ty, fd, cs⟩
    dsimp only
    split_ifs with hg
    · right
      apply traverseList_buildInv
      refine ⟨by simp, by simp, ?_⟩
      intro n hn
      rcases List.mem_singleton.mp hn with rfl
      norm_num
    · exact Or.inl rfl

theorem sankeyGlobalScale_empty (style : SankeyStyle) :
    sankeyGlobalScale style BuildState.empty = 1 := by
  simp [sankeyGlobalScale, maxOverflow, sortKeys, BuildState.empty]

theorem generate_sankey_nodes_eq (style : SankeyStyle)
    (root : Option TreeItem)
    (h : ¬(buildSankeyState style root).nodes.length = 0) :
    (generate_sankey_data style root).nodes =
      assignY (buildSankeyState style root).nodesByDepth
        ((1 - style.vertical_fill) / 2) (style.pad / 1000)
        ((assignX (buildSankeyState style root).nodesByDepth
            ((buildSankeyState style root).maxDepth + 1)
            (buildSankeyState style root).nodes).map
          fun n => { n with height := n.height *
            sankeyGlobalScale style (buildSankeyState style root) }) := by
  unfold generate_sankey_data sankeyGeometry sankeyGlobalScale
  rw [if_neg h]

/-- C8 as amended: the global scale is in `(0, 1]` and, after it is applied
to every node height, every depth level fits once the inter-node gap term
is also scaled: `sum(scaled_heights) + scale * gap * (N-1) <= 1 - 2*margin`.
(The claim's version with the unscaled gap term is false: the code scales
heights and link values but places nodes with the unscaled gap.) -/
theorem sankey_level_fit (style : SankeyStyle) (root : Option TreeItem)
    (hvf : 0 < style.vertical_fill) :
    0 < sankeyGlobalScale style (buildSankeyState style root) ∧
    sankeyGlobalScale style (buildSankeyState style root) ≤ 1 ∧
    ∀ d idxs, (d, idxs) ∈ (buildSankeyState style root).nodesByDepth →
      (idxs.map fun i =>
          heightAt (generate_sankey_data style root).nodes i).sum +
        sankeyGlobalScale style (buildSankeyState style root) *
          (if idxs.length > 1 then
            style.pad / 1000 * ((idxs.length : ℚ) - 1) else 0) ≤
        1 - 2 * ((1 - style.vertical_fill) / 2) := by
  have havail : 1 - 2 * ((1 - style.vertical_fill) / 2) =
      style.vertical_fill := by ring
  have hpos : 0 < 1 - 2 * ((1 - style.vertical_fill) / 2) := by
    rw [havail]; exact hvf
  rcases buildSankeyState_inv style root with hemp | hinv
  · rw [hemp, sankeyGlobalScale_empty]
    refine ⟨one_pos, le_rfl, ?_⟩
    intro d idxs hmem
    simp [BuildState.empty] at hmem
  · have hratio1 : 1 ≤ maxOverflow
        (assignX (buildSankeyState style root).nodesByDepth
          ((buildSankeyState style root).maxDepth + 1)
          (buildSankeyState style root).nodes)
        (buildSankeyState style root).nodesByDepth
        (1 - 2 * ((1 - style.vertical_fill) / 2)) (style.pad / 1000) :=
      maxOverflow_ge_one _ _ _ _
    have hscale_eq : sankeyGlobalScale style (buildSankeyState style root) =
        (if maxOverflow
            (assignX (buildSankeyState style root).nodesByDepth
              ((buildSankeyState style root).maxDepth + 1)
              (buildSankeyState style root).nodes)
            (buildSankeyState style root).nodesByDepth
            (1 - 2 * ((1 - style.vertical_fill) / 2)) (style.pad / 1000) > 1
          then 1 / maxOverflow
            (assignX (buildSankeyState style root).nodesByDepth
              ((buildSankeyState style root).maxDepth + 1)
              (buildSankeyState style root).nodes)
            (buildSankeyState style root).nodesByDepth
            (1 - 2 * ((1 - style.vertical_fill) / 2)) (style.pad / 1000)
          else 1) := rfl
    have hscale_pos : 0 < sankeyGlobalScale style (buildSankeyState style root) := by
      rw [hscale_eq]
      split_ifs with h
      · exact one_div_pos.mpr (lt_trans one_pos h)
      · exact one_pos
    have hscale_le1 : sankeyGlobalScale style (buildSankeyState style root) ≤ 1 := by
      rw [hscale_eq]
      split_ifs with h
      · rw [div_le_one (lt_trans one_pos h)]
        exact le_of_lt h
      · exact le_rfl
    refine ⟨hscale_pos, hscale_le1, ?_⟩
    intro d idxs hmem
    rcases hinv with ⟨hkeys, hlen, _⟩
    have hlook : lookupD (buildSankeyState style root).nodesByDepth d [] =
        idxs := lookupD_eq_of_nodup _ _ _ _ hkeys hmem
    have hdm : d ∈ (buildSankeyState style root).nodesByDepth.map Prod.fst :=
      List.mem_map.mpr ⟨(d, idxs), hmem, rfl⟩
    have hne0 : ¬(buildSankeyState style root).nodes.length = 0 := by omega
    have hout : ∀ i, heightAt (generate_sankey_data style root).nodes i =
        heightAt (assignX (buildSankeyState style root).nodesByDepth
          ((buildSankeyState style root).maxDepth + 1)
          (buildSankeyState style root).nodes) i *
          sankeyGlobalScale style (buildSankeyState style root) := by
      intro i
      rw [generate_sankey_nodes_eq style root hne0, assignY_heightAt,
        heightAt_scaled]
    have hsum : (idxs.map fun i =>
        heightAt (generate_sankey_data style root).nodes i).sum =
        (idxs.map fun i =>
          heightAt (assignX (buildSankeyState style root).nodesByDepth
            ((buildSankeyState style root).maxDepth + 1)
            (buildSankeyState style root).nodes) i).sum *
          sankeyGlobalScale style (buildSankeyState style root) := by
      rw [List.map_congr_left fun i _ => hout i, sum_map_heights_mul]
    rw [hsum]
    have hneed : (idxs.map fun i =>
        heightAt (assignX (buildSankeyState style root).nodesByDepth
          ((buildSankeyState style root).maxDepth + 1)
          (buildSankeyState style root).nodes) i).sum *
          sankeyGlobalScale style (buildSankeyState style root) +
        sankeyGlobalScale style (buildSankeyState style root) *
          (if idxs.length > 1 then
            style.pad / 1000 * ((idxs.length : ℚ) - 1) else 0) =
        sankeyGlobalScale style (buildSankeyState style root) *
          levelNeeded (assignX (buildSankeyState style root).nodesByDepth
            ((buildSankeyState style root).maxDepth + 1)
            (buildSankeyState style root).nodes) (style.pad / 1000) idxs := by
      unfold levelNeeded
      ring
    rw [hneed]
    by_cases hov : levelNeeded
        (assignX (buildSankeyState style root).nodesByDepth
          ((buildSankeyState style root).maxDepth + 1)
          (buildSankeyState style root).nodes) (style.pad / 1000) idxs >
        1 - 2 * ((1 - style.vertical_fill) / 2)
    · have hov' : levelNeeded
          (assignX (buildSankeyState style root).nodesByDepth
            ((buildSankeyState style root).maxDepth + 1)
            (buildSankeyState style root).nodes) (style.pad / 1000)
          (lookupD (buildSankeyState style root).nodesByDepth d []) >
          1 - 2 * ((1 - style.vertical_fill) / 2) := by rw [hlook]; exact hov
      have hge := maxOverflow_ge _ _ _ _ d hdm hov'
      rw [hlook] at hge
      have hgt1 : 1 < levelNeeded
          (assignX (buildSankeyState style root).nodesByDepth
            ((buildSankeyState style root).maxDepth + 1)
            (buildSankeyState style root).nodes) (style.pad / 1000) idxs /
          (1 - 2 * ((1 - style.vertical_fill) / 2)) :=
        (one_lt_div hpos).mpr hov
      have hrgt1 : 1 < maxOverflow
          (assignX (buildSankeyState style root).nodesByDepth
            ((buildSankeyState style root).maxDepth + 1)
            (buildSankeyState style root).nodes)
          (buildSankeyState style root).nodesByDepth
          (1 - 2 * ((1 - style.vertical_fill) / 2)) (style.pad / 1000) :=
        lt_of_lt_of_le hgt1 hge
      have hrpos : (0 : ℚ) < maxOverflow
          (assignX (buildSankeyState style root).nodesByDepth
            ((buildSankeyState style root).maxDepth + 1)
            (buildSankeyState style root).nodes)
          (buildSankeyState style root).nodesByDepth
          (1 - 2 * ((1 - style.vertical_fill) / 2)) (style.pad / 1000) :=
        lt_trans one_pos hrgt1
      have h1 : levelNeeded
          (assignX (buildSankeyState style root).nodesByDepth
            ((buildSankeyState style root).maxDepth + 1)
            (buildSankeyState style root).nodes) (style.pad / 1000) idxs ≤
          maxOverflow
            (assignX (buildSankeyState style root).nodesByDepth
              ((buildSankeyState style root).maxDepth + 1)
              (buildSankeyState style root).nodes)
            (buildSankeyState style root).nodesByDepth
            (1 - 2 * ((1 - style.vertical_fill) / 2)) (style.pad / 1000) *
            (1 - 2 * ((1 - style.vertical_fill) / 2)) :=
        (div_le_iff hpos).mp hge
      rw [hscale_eq, if_pos hrgt1]
      calc 1 / maxOverflow
            (assignX (buildSankeyState style root).nodesByDepth
              ((buildSankeyState style root).maxDepth + 1)
              (buildSankeyState style root).nodes)
            (buildSankeyState style root).nodesByDepth
            (1 - 2 * ((1 - style.vertical_fill) / 2)) (style.pad / 1000) *
            levelNeeded (assignX (buildSankeyState style root).nodesByDepth
              ((buildSankeyState style root).maxDepth + 1)
              (buildSankeyState style root).nodes) (style.pad / 1000) idxs ≤
          1 / maxOverflow
            (assignX (buildSankeyState style root).nodesByDepth
              ((buildSankeyState style root).maxDepth + 1)
              (buildSankeyState style root).nodes)
            (buildSankeyState style root).nodesByDepth
            (1 - 2 * ((1 - style.vertical_fill) / 2)) (style.pad / 1000) *
            (maxOverflow
              (assignX (buildSankeyState style root).nodesByDepth
                ((buildSankeyState style root).maxDepth + 1)
                (buildSankeyState style root).nodes)
              (buildSankeyState style root).nodesByDepth
              (1 - 2 * ((1 - style.vertical_fill) / 2)) (style.pad / 1000) *
              (1 - 2 * ((1 - style.vertical_fill) / 2))) := by
            apply mul_le_mul_of_nonneg_left h1
            exact le_of_lt (one_div_pos.mpr hrpos)
        _ = 1 - 2 * ((1 - style.vertical_fill) / 2) := by
            rw [one_div, inv_mul_cancel_left₀ (ne_of_gt hrpos)]
    · push_neg at hov
      rcases le_or_lt (levelNeeded
          (assignX (buildSankeyState style root).nodesByDepth
            ((buildSankeyState style root).maxDepth + 1)
            (buildSankeyState style root).nodes) (style.pad / 1000) idxs) 0
        with hneg | hposneeded
      · exact le_trans (mul_nonpos_of_nonneg_of_nonpos
          (le_of_lt hscale_pos) hneg) (le_of_lt hpos)
      · calc sankeyGlobalScale style (buildSankeyState style root) *
            levelNeeded (assignX (buildSankeyState style root).nodesByDepth
              ((buildSankeyState style root).maxDepth + 1)
              (buildSankeyState style root).nodes) (style.pad / 1000) idxs ≤
            1 * levelNeeded (assignX (buildSankeyState style root).nodesByDepth
              ((buildSankeyState style root).maxDepth + 1)
              (buildSankeyState style root).nodes) (style.pad / 1000) idxs :=
            mul_le_mul_of_nonneg_right hscale_le1 (le_of_lt hposneeded)
        _ ≤ 1 - 2 * ((1 - style.vertical_fill) / 2) := by
            rw [one_mul]; exact hov

/-- Witness for C8 as amended, at the default style and the empty tree. -/
theorem sankey_level_fit_witness :
    0 < sankeyGlobalScale {} (buildSankeyState {} none) ∧
    sankeyGlobalScale {} (buildSankeyState {} none) ≤ 1 ∧
    ∀ d idxs, (d, idxs) ∈ (buildSankeyState {} none).nodesByDepth →
      (idxs.map fun i =>
          heightAt (generate_sankey_data {} none).nodes i).sum +
        sankeyGlobalScale {} (buildSankeyState {} none) *
          (if idxs.length > 1 then
            ({} : SankeyStyle).pad / 1000 * ((idxs.length : ℚ) - 1) else 0) ≤
        1 - 2 * ((1 - ({} : SankeyStyle).vertical_fill) / 2) :=
  sankey_level_fit {} none (by norm_num [SankeyStyle.vertical_fill])

theorem assignX_length (m : List (ℕ × List ℕ)) (nd : ℕ)
    (ns : List NodeData) : (assignX m nd ns).length = ns.length := by
  unfold assignX
  refine foldl_preserve (fun acc => acc.length = ns.length) _ ?_ m ns rfl
  intro b p hb
  refine foldl_preserve (fun acc => acc.length = ns.length) _ ?_ p.2 b hb
  intro b2 j hb2
  rw [modifyAt_length]
  exact hb2

theorem placeLevel_length (gap : ℚ) (ns : List NodeData) (y0 : ℚ)
    (idxs : List ℕ) : (placeLevel gap ns y0 idxs).length = ns.length := by
  unfold placeLevel
  refine foldl_preserve
    (fun acc : List NodeData × ℚ => acc.1.length = ns.length) _ ?_ idxs
    (ns, y0) rfl
  intro b j hb
  dsimp only
  rw [modifyAt_length]
  exact hb

theorem assignY_length (m : List (ℕ × List ℕ)) (vmargin gap : ℚ)
    (ns : List NodeData) : (assignY m vmargin gap ns).length = ns.length := by
  unfold assignY
  refine foldl_preserve (fun acc => acc.length = ns.length) _ ?_
    (sortKeys (m.map Prod.fst)) ns rfl
  intro b d hb
  rw [placeLevel_length]
  exact hb

/-- C9 as amended: every node record emitted by the traversal carries
height at least the `0.001` floor — a zero-weight node is emitted with
height `0.001`, not `0` — and the geometry phase keeps every record (no
filtering), so the output has exactly as many node records as the
traversal emitted. -/
theorem sankey_heights_floored (style : SankeyStyle) (root : Option TreeItem) :
    (∀ n ∈ (buildSankeyState style root).nodes, 1 / 1000 ≤ n.height) ∧
    (¬(buildSankeyState style root).nodes.length = 0 →
      (generate_sankey_data style root).nodes.length =
        (buildSankeyState style root).nodes.length) := by
  constructor
  · rcases buildSankeyState_inv style root with hemp | hinv
    · rw [hemp]
      intro n hn
      simp [BuildState.empty] at hn
    · exact hinv.2.2
  · intro hne
    rw [generate_sankey_nodes_eq style root hne, assignY_length,
      List.length_map, assignX_length]

end Mives

namespace Mives

theorem buildSankeyState_cexTree :
    buildSankeyState cexStyle (some cexTree) =
    ⟨[⟨"r", ⟨"Root", none⟩, 0, 0, 1, "#27ae60"⟩,
      ⟨"a", ⟨"A", none⟩, 0, 0, 1, "#27ae60"⟩,
      ⟨"b", ⟨"B", none⟩, 0, 0, 1, "#27ae60"⟩],
     [⟨"r", "a", 1, 0, 0, "rgba(180, 180, 180, 0.4)"⟩,
      ⟨"r", "b", 1, 0, 0, "rgba(180, 180, 180, 0.4)"⟩],
     [(0, [0]), (1, [1, 2])],
     [(⟨"Root", none⟩, 0), (⟨"A", none⟩, 1), (⟨"B", none⟩, 2)],
     1⟩ := by
  have s1 : ¬("r" : String) = "" := by decide
  have s2 : ¬("Root" : String) = "" := by decide
  have s3 : ¬("a" : String) = "" := by decide
  have s4 : ¬("b" : String) = "" := by decide
  have l1 : ¬(SankeyLabel.mk "Root" none = SankeyLabel.mk "A" none) := by decide
  have l2 : ¬(SankeyLabel.mk "Root" none = SankeyLabel.mk "B" none) := by decide
  have l3 : ¬(SankeyLabel.mk "A" none = SankeyLabel.mk "B" none) := by decide
  norm_num [buildSankeyState, cexTree, cexStyle, traverse, traverseList,
    registerNode, addParentLink, pushDepth, lookupA, lookupD, build_label,
    get_local_weight, TreeItem.weight, s1, s2, s3, s4, l1, l2, l3]

theorem sankeyGlobalScale_cexTree :
    sankeyGlobalScale cexStyle (buildSankeyState cexStyle (some cexTree)) =
      190 / 403 := by
  rw [buildSankeyState_cexTree]
  have e0 : heightAt [⟨"r", ⟨"Root", none⟩, 0, 0, 1, "#27ae60"⟩,
      ⟨"a", ⟨"A", none⟩, 0, 0, 1, "#27ae60"⟩,
      ⟨"b", ⟨"B", none⟩, 0, 0, 1, "#27ae60"⟩] 0 = 1 := rfl
  have e1 : heightAt [⟨"r", ⟨"Root", none⟩, 0, 0, 1, "#27ae60"⟩,
      ⟨"a", ⟨"A", none⟩, 0, 0, 1, "#27ae60"⟩,
      ⟨"b", ⟨"B", none⟩, 0, 0, 1, "#27ae60"⟩] 1 = 1 := rfl
  have e2 : heightAt [⟨"r", ⟨"Root", none⟩, 0, 0, 1, "#27ae60"⟩,
      ⟨"a", ⟨"A", none⟩, 0, 0, 1, "#27ae60"⟩,
      ⟨"b", ⟨"B", none⟩, 0, 0, 1, "#27ae60"⟩] 2 = 1 := rfl
  norm_num [sankeyGlobalScale, maxOverflow, sortKeys, insertSorted,
    overflowStep, levelNeeded, lookupA, lookupD, assignX_heightAt,
    e0, e1, e2, cexStyle]

/-- C8 counterexample: for the root with two `100%` children under the
default gap (`pad = 15`) and `vertical_fill = 0.95`, the depth-1 level
still overflows after the global scale is applied, because the scale is
applied to heights but the placement gap stays unscaled — the claimed
bound is exceeded by more than `1/200 = 0.005`, far beyond any numerical
epsilon. -/
theorem sankey_level_fit_counterexample :
    (1, [1, 2]) ∈ (buildSankeyState cexStyle (some cexTree)).nodesByDepth ∧
    (([1, 2] : List ℕ).map fun i =>
        heightAt (generate_sankey_data cexStyle (some cexTree)).nodes i).sum +
      cexStyle.pad / 1000 * ((([1, 2] : List ℕ).length : ℚ) - 1) >
      (1 - 2 * ((1 - cexStyle.vertical_fill) / 2)) + 1 / 200 := by
  have hne0 : ¬(buildSankeyState cexStyle (some cexTree)).nodes.length = 0 := by
    rw [buildSankeyState_cexTree]
    simp
  have hH : ∀ i, heightAt (generate_sankey_data cexStyle (some cexTree)).nodes i =
      heightAt (buildSankeyState cexStyle (some cexTree)).nodes i * (190 / 403) := by
    intro i
    rw [generate_sankey_nodes_eq cexStyle (some cexTree) hne0, assignY_heightAt,
      heightAt_scaled, sankeyGlobalScale_cexTree, assignX_heightAt]
  constructor
  · rw [buildSankeyState_cexTree]
    simp
  · rw [List.map_cons, List.map_cons, List.map_nil, List.sum_cons,
      List.sum_cons, List.sum_nil, hH 1, hH 2, buildSankeyState_cexTree]
    have e1 : heightAt [⟨"r", ⟨"Root", none⟩, 0, 0, 1, "#27ae60"⟩,
        ⟨"a", ⟨"A", none⟩, 0, 0, 1, "#27ae60"⟩,
        ⟨"b", ⟨"B", none⟩, 0, 0, 1, "#27ae60"⟩] 1 = 1 := rfl
    have e2 : heightAt [⟨"r", ⟨"Root", none⟩, 0, 0, 1, "#27ae60"⟩,
        ⟨"a", ⟨"A", none⟩, 0, 0, 1, "#27ae60"⟩,
        ⟨"b", ⟨"B", none⟩, 0, 0, 1, "#27ae60"⟩] 2 = 1 := rfl
    rw [e1, e2]
    norm_num [cexStyle]

theorem buildSankeyState_zeroTree :
    buildSankeyState cexStyle (some zeroTree) =
    ⟨[⟨"r", ⟨"Root", none⟩, 0, 0, 1, "#27ae60"⟩,
      ⟨"z", ⟨"Z", none⟩, 0, 0, 1 / 1000, "#27ae60"⟩],
     [⟨"r", "z", 1 / 1000, 0, 0, "rgba(180, 180, 180, 0.4)"⟩],
     [(0, [0]), (1, [1])],
     [(⟨"Root", none⟩, 0), (⟨"Z", none⟩, 1)],
     1⟩ := by
  have s1 : ¬("r" : String) = "" := by decide
  have s2 : ¬("Root" : String) = "" := by decide
  have s3 : ¬("z" : String) = "" := by decide
  have l1 : ¬(SankeyLabel.mk "Root" none = SankeyLabel.mk "Z" none) := by decide
  norm_num [buildSankeyState, zeroTree, cexStyle, traverse, traverseList,
    registerNode, addParentLink, pushDepth, lookupA, lookupD, build_label,
    get_local_weight, TreeItem.weight, s1, s2, s3, l1]

theorem sankeyGlobalScale_zeroTree :
    sankeyGlobalScale cexStyle (buildSankeyState cexStyle (some zeroTree)) =
      19 / 20 := by
  rw [buildSankeyState_zeroTree]
  have e0 : heightAt [⟨"r", ⟨"Root", none⟩, 0, 0, 1, "#27ae60"⟩,
      ⟨"z", ⟨"Z", none⟩, 0, 0, 1 / 1000, "#27ae60"⟩] 0 = 1 := rfl
  have e1 : heightAt [⟨"r", ⟨"Root", none⟩, 0, 0, 1, "#27ae60"⟩,
      ⟨"z", ⟨"Z", none⟩, 0, 0, 1 / 1000, "#27ae60"⟩] 1 = 1 / 1000 := rfl
  norm_num [sankeyGlobalScale, maxOverflow, sortKeys, insertSorted,
    overflowStep, levelNeeded, lookupA, lookupD, assignX_heightAt,
    e0, e1, cexStyle]

/-- C9 counterexample: a child whose weight text is `0` is still emitted
(the output keeps both node records), but its height is
`0.001 * global_scale = 19/20000`, not the `0` the claim derives from
`height = absolute_weight`: the code floors every absolute weight at
`0.001` (`math_engine.py` lines 606-607). -/
theorem sankey_zero_weight_counterexample :
    (generate_sankey_data cexStyle (some zeroTree)).nodes.length = 2 ∧
    heightAt (generate_sankey_data cexStyle (some zeroTree)).nodes 1 =
      19 / 20000 ∧
    ¬heightAt (generate_sankey_data cexStyle (some zeroTree)).nodes 1 = 0 := by
  have hne0 : ¬(buildSankeyState cexStyle (some zeroTree)).nodes.length = 0 := by
    rw [buildSankeyState_zeroTree]
    simp
  have hH : heightAt (generate_sankey_data cexStyle (some zeroTree)).nodes 1 =
      heightAt (buildSankeyState cexStyle (some zeroTree)).nodes 1 * (19 / 20) := by
    rw [generate_sankey_nodes_eq cexStyle (some zeroTree) hne0, assignY_heightAt,
      heightAt_scaled, sankeyGlobalScale_zeroTree, assignX_heightAt]
  have e1 : heightAt [⟨"r", ⟨"Root", none⟩, 0, 0, 1, "#27ae60"⟩,
      ⟨"z", ⟨"Z", none⟩, 0, 0, 1 / 1000, "#27ae60"⟩] 1 = 1 / 1000 := rfl
  refine ⟨?_, ?_, ?_⟩
  · rw [generate_sankey_nodes_eq cexStyle (some zeroTree) hne0, assignY_length,
      List.length_map, assignX_length, buildSankeyState_zeroTree]
    rfl
  · rw [hH, buildSankeyState_zeroTree, e1]
    norm_num
  · rw [hH, buildSankeyState_zeroTree, e1]
    norm_num

theorem buildSankeyState_leafTree :
    buildSankeyState cexStyle (some leafTree) =
    ⟨[⟨"r", ⟨"Root", none⟩, 0, 0, 1, "#27ae60"⟩], [], [(0, [0])],
      [(⟨"Root", none⟩, 0)], 0⟩ := by
  have s1 : ¬("r" : String) = "" := by decide
  have s2 : ¬("Root" : String) = "" := by decide
  norm_num [buildSankeyState, leafTree, cexStyle, traverseList, build_label,
    s1, s2]

/-- Witness for C9 as amended, on the concrete root-only tree. -/
theorem sankey_heights_floored_witness :
    1 / 1000 ≤ (NodeData.mk "r" ⟨"Root", none⟩ 0 0 1 "#27ae60").height ∧
    (generate_sankey_data cexStyle (some leafTree)).nodes.length =
      (buildSankeyState cexStyle (some leafTree)).nodes.length := by
  constructor
  · exact (sankey_heights_floored cexStyle (some leafTree)).1 _
      (by rw [buildSankeyState_leafTree]; simp)
  · exact (sankey_heights_floored cexStyle (some leafTree)).2
      (by rw [buildSankeyState_leafTree]; simp)

/-! ## Dual-layer lemmas -/

theorem foldl_preserve_mem {α β : Type} (P : β → Prop) (f : β → α → β)
    (l : List α) (h : ∀ b a, a ∈ l → P b → P (f b a)) :
    ∀ b, P b → P (l.foldl f b) := by
  induction l with
  | nil => intro b hb; exact hb
  | cons a as ih =>
      intro b hb
      rw [List.foldl_cons]
      exact ih (fun b2 a2 ha2 => h b2 a2 (List.mem_cons_of_mem a ha2)) _
        (h b a (List.mem_cons_self a as) hb)

theorem heightAt_append (l : List NodeData) (a : NodeData) (i : ℕ) :
    heightAt (l ++ [a]) i =
      if i < l.length then heightAt l i
      else if i = l.length then a.height else 0 := by
  induction l generalizing i with
  | nil =>
      cases i with
      | zero => simp [heightAt]
      | succ n => simp [heightAt]
  | cons b bs ih =>
      cases i with
      | zero => simp [heightAt]
      | succ n =>
          have hc : heightAt ((b :: bs) ++ [a]) (n + 1) =
              heightAt (bs ++ [a]) n := rfl
          have hc2 : heightAt (b :: bs) (n + 1) = heightAt bs n := rfl
          rw [hc, ih n, List.length_cons]
          by_cases h1 : n < bs.length
          · rw [if_pos h1, if_pos (by omega), hc2]
          · by_cases h2 : n = bs.length
            · rw [if_neg h1, if_pos h2, if_neg (by omega), if_pos (by omega)]
            · rw [if_neg h1, if_neg h2, if_neg (by omega), if_neg (by omega)]

theorem lookupA_mem {α β : Type} [DecidableEq α] (m : List (α × β)) (k : α)
    (v : β) (h : lookupA m k = some v) : (k, v) ∈ m := by
  induction m with
  | nil => simp [lookupA] at h
  | cons p rest ih =>
      rw [lookupA] at h
      split_ifs at h with hp
      · rcases Option.some.inj h with rfl
        exact hp ▸ List.mem_cons_self p rest
      · exact List.mem_cons_of_mem p (ih h)

theorem pushDepth_flatten_keyed (m : List (ℕ × List ℕ)) (d : ℕ) (i : ℕ)
    (hn : (m.map Prod.fst).Nodup) (hkey : ∃ q ∈ m, q.1 = d) :
    List.Perm (((m.map fun p =>
        if p.1 = d then (p.1, p.2 ++ [i]) else p).map Prod.snd).flatten)
      ((m.map Prod.snd).flatten ++ [i]) := by
  induction m with
  | nil =>
      rcases hkey with ⟨q, hq, _⟩
      cases hq
  | cons p rest ih =>
      rw [List.map_cons, List.nodup_cons] at hn
      by_cases hp : p.1 = d
      · have hrest : (rest.map fun q =>
            if q.1 = d then (q.1, q.2 ++ [i]) else q) = rest := by
          apply pushDepth_map_noKey
          intro q hq hqd
          exact hn.1 (hp ▸ hqd ▸ List.mem_map.mpr ⟨q, hq, rfl⟩)
        rw [List.map_cons, if_pos hp, hrest, List.map_cons,
          List.flatten_cons, List.map_cons, List.flatten_cons,
          List.append_assoc]
        refine List.Perm.trans
          (List.Perm.append_left p.2 List.perm_append_comm) ?_
        rw [List.append_assoc]
      · rcases hkey with ⟨q, hq, hqd⟩
        rcases List.mem_cons.mp hq with rfl | hq'
        · exact absurd hqd hp
        · rw [List.map_cons, if_neg hp, List.map_cons, List.flatten_cons,
            List.map_cons, List.flatten_cons, List.append_assoc]
          exact List.Perm.append_left p.2 (ih hn.2 ⟨q, hq', hqd⟩)

theorem pushDepth_flatten_perm (m : List (ℕ × List ℕ)) (d : ℕ) (i : ℕ)
    (hn : (m.map Prod.fst).Nodup) :
    List.Perm (((pushDepth m d i).map Prod.snd).flatten)
      ((m.map Prod.snd).flatten ++ [i]) := by
  unfold pushDepth
  split_ifs with h
  · rcases List.any_eq_true.mp h with ⟨q, hq, hqd⟩
    exact pushDepth_flatten_keyed m d i hn ⟨q, hq, by simpa using hqd⟩
  · rw [List.map_append, List.flatten_append]
    simp

theorem scenInv_registerScenNode (style : SankeyStyle) (uid : String)
    (label : SankeyLabel) (aw sat : ℚ) (depth : ℕ) (st : ScenState)
    (haw : 0 ≤ aw) (hsat : sat ≤ 1) (h : scenInv st) :
    scenInv (registerScenNode style uid label aw sat depth st) := by
  unfold registerScenNode
  rcases h with ⟨h1, h2, h3, h4⟩
  split_ifs
  · refine ⟨pushDepth_keys_nodup _ _ _ h1, ?_, ?_, ?_⟩
    · refine (pushDepth_flatten_perm _ _ _ h1).trans ?_
      have hlen : (st.shadowNodes ++
          ([⟨uid, ⟨"", none⟩, 0, 0, aw, style.shadow_node_color⟩] :
            List NodeData)).length = st.shadowNodes.length + 1 := by simp
      rw [hlen, List.range_succ]
      exact h2.append_right [st.shadowNodes.length]
    · simp [h3]
    · intro i
      rw [heightAt_append, heightAt_append, h3]
      split_ifs with c1 c2
      · exact h4 i
      · exact mul_le_of_le_one_right haw hsat
      · exact le_rfl
  · exact ⟨h1, h2, h3, h4⟩

theorem scenInv_addScenLinks (style : SankeyStyle) (uid : String) (aw : ℚ)
    (parentIdx : Option ℕ) (currentIdx : ℕ) (st : ScenState)
    (h : scenInv st) :
    scenInv (addScenLinks style uid aw parentIdx currentIdx st) := by
  unfold addScenLinks
  rcases parentIdx with _ | pidx
  · exact h
  · exact h

theorem traverseScen_scenInv (style : SankeyStyle)
    (scores : String → Option ℚ) (hs : ∀ u, ((scores u).getD 0 : ℚ) ≤ 1) :
    ∀ t : TreeItem, ∀ pidx pw depth st, scenInv st →
      scenInv (traverseScen style scores t pidx pw depth st) := by
  intro t
  induction t using TreeItem.inductionOn with
  | _ uid name w ty fd cs ih =>
      intro pidx pw depth st hst
      rw [traverseScen]
      by_cases huid : uid = ""
      · simpa [huid] using hst
      · simp only [huid, if_false]
        have hlist : ∀ (cs2 : List TreeItem),
            (∀ c ∈ cs2, ∀ pidx2 pw2 depth2 st2, scenInv st2 →
              scenInv (traverseScen style scores c pidx2 pw2 depth2 st2)) →
            ∀ pidx2 pw2 depth2 st2, scenInv st2 →
              scenInv (traverseScenList style scores cs2 pidx2 pw2 depth2 st2) := by
          intro cs2 ih2
          induction cs2 with
          | nil => intro _ _ _ st2 h2; simpa [traverseScenList] using h2
          | cons c rest ihrest =>
              intro pidx2 pw2 depth2 st2 h2
              rw [traverseScenList]
              exact ihrest (fun dd hd => ih2 dd (List.mem_cons_of_mem c hd))
                _ _ _ _ (ih2 c (List.mem_cons_self c rest) _ _ _ _ h2)
        apply hlist cs ih
        apply scenInv_addScenLinks
        apply scenInv_registerScenNode _ _ _ _ _ _ _
          (le_trans (by norm_num) (floorWeight_ge _)) (hs uid)
        split_ifs
        · exact hst
        · exact hst

theorem traverseScenList_scenInv (style : SankeyStyle)
    (scores : String → Option ℚ) (hs : ∀ u, ((scores u).getD 0 : ℚ) ≤ 1)
    (cs : List TreeItem) :
    ∀ pidx pw depth st, scenInv st →
      scenInv (traverseScenList style scores cs pidx pw depth st) := by
  induction cs with
  | nil => intro _ _ _ st h; simpa [traverseScenList] using h
  | cons c rest ih =>
      intro pidx pw depth st h
      rw [traverseScenList]
      exact ih _ _ _ _ (traverseScen_scenInv style scores hs c _ _ _ _ h)

theorem buildScenState_scenInv (style : SankeyStyle)
    (scores : String → Option ℚ) (hs : ∀ u, ((scores u).getD 0 : ℚ) ≤ 1)
    (root : Option TreeItem) :
    scenInv (buildScenState style scores root) := by
  have hempty : scenInv ScenState.empty := by
    refine ⟨by simp [ScenState.empty], by simp [ScenState.empty],
      by simp [ScenState.empty], fun i => ?_⟩
    simp [ScenState.empty, heightAt]
  unfold buildScenState
  rcases root with _ | t
  · exact hempty
  · rcases t with ⟨uid, name, w, ty, fd, cs⟩
    dsimp only
    split_ifs with hg
    · apply traverseScenList_scenInv style scores hs
      refine ⟨by simp, by simp [List.range_succ], by simp, fun i => ?_⟩
      cases i with
      | zero =>
          have e1 : heightAt [⟨uid,
              build_label_scenario style.show_node_weight name
                (some ((scores uid).getD 0)), 0, 0, (scores uid).getD 0,
              style.root_highlight_color.getD style.node_color⟩] 0 =
              (scores uid).getD 0 := rfl
          have e2 : heightAt [⟨uid, ⟨"", none⟩, 0, 0, 1,
              style.shadow_node_color⟩] 0 = 1 := rfl
          rw [e1, e2]
          exact hs uid
      | succ n =>
          have e1 : ∀ x : NodeData, heightAt [x] (n + 1) = 0 := fun _ => rfl
          rw [e1, e1]
    · exact hempty

theorem placeLevelScen_nil (gap : ℚ) (sns fns : List NodeData) (y0 : ℚ) :
    placeLevelScen gap sns fns y0 [] = (sns, fns) := rfl

theorem placeLevelScen_cons (gap : ℚ) (sns fns : List NodeData) (y0 : ℚ)
    (j : ℕ) (rest : List ℕ) :
    placeLevelScen gap sns fns y0 (j :: rest) =
      placeLevelScen gap
        (modifyAt sns j fun n => { n with y := y0 })
        (modifyAt fns j fun n =>
          { n with y := y0 +
            (heightAt (modifyAt sns j fun n2 => { n2 with y := y0 }) j -
              heightAt fns j) / 2 })
        (y0 + heightAt (modifyAt sns j fun n => { n with y := y0 }) j + gap)
        rest := rfl

theorem placeLevelScen_get?_not_mem (gap : ℚ) (sns fns : List NodeData)
    (y0 : ℚ) (idxs : List ℕ) (i : ℕ) (hi : i ∉ idxs) :
    (placeLevelScen gap sns fns y0 idxs).1.get? i = sns.get? i ∧
    (placeLevelScen gap sns fns y0 idxs).2.get? i = fns.get? i := by
  induction idxs generalizing sns fns y0 with
  | nil => exact ⟨rfl, rfl⟩
  | cons j rest ihr =>
      have hij : ¬j = i := fun hc => hi (hc ▸ List.mem_cons_self j rest)
      have hir : i ∉ rest := fun hc => hi (List.mem_cons_of_mem j hc)
      rw [placeLevelScen_cons]
      refine ⟨(ihr _ _ _ hir).1.trans ?_, (ihr _ _ _ hir).2.trans ?_⟩
      · rw [get?_modifyAt, if_neg hij]
      · rw [get?_modifyAt, if_neg hij]

theorem placeLevelScen_heights (gap : ℚ) (sns fns : List NodeData)
    (y0 : ℚ) (idxs : List ℕ) (i : ℕ) :
    heightAt (placeLevelScen gap sns fns y0 idxs).1 i = heightAt sns i ∧
    heightAt (placeLevelScen gap sns fns y0 idxs).2 i = heightAt fns i := by
  induction idxs generalizing sns fns y0 with
  | nil => exact ⟨rfl, rfl⟩
  | cons j rest ihr =>
      rw [placeLevelScen_cons]
      refine ⟨((ihr _ _ _).1).trans ?_, ((ihr _ _ _).2).trans ?_⟩
      · exact heightAt_modifyAt _ _ _ _ fun _ => rfl
      · exact heightAt_modifyAt _ _ _ _ fun _ => rfl

theorem placeLevelScen_lengths (gap : ℚ) (sns fns : List NodeData)
    (y0 : ℚ) (idxs : List ℕ) :
    (placeLevelScen gap sns fns y0 idxs).1.length = sns.length ∧
    (placeLevelScen gap sns fns y0 idxs).2.length = fns.length := by
  induction idxs generalizing sns fns y0 with
  | nil => exact ⟨rfl, rfl⟩
  | cons j rest ihr =>
      rw [placeLevelScen_cons]
      refine ⟨((ihr _ _ _).1).trans ?_, ((ihr _ _ _).2).trans ?_⟩
      · exact modifyAt_length _ _ _
      · exact modifyAt_length _ _ _

theorem placeLevelScen_centered (gap : ℚ) (sns fns : List NodeData)
    (y0 : ℚ) (idxs : List ℕ) (i : ℕ) (hnd : idxs.Nodup) (hi : i ∈ idxs) :
    centered (placeLevelScen gap sns fns y0 idxs).1
      (placeLevelScen gap sns fns y0 idxs).2 i := by
  induction idxs generalizing sns fns y0 with
  | nil => cases hi
  | cons j rest ihr =>
      rw [List.nodup_cons] at hnd
      rw [placeLevelScen_cons]
      rcases List.mem_cons.mp hi with rfl | hir
      · have hrest : i ∉ rest := hnd.1
        have hu := placeLevelScen_get?_not_mem gap
          (modifyAt sns i fun n => { n with y := y0 })
          (modifyAt fns i fun n =>
            { n with y := y0 +
              (heightAt (modifyAt sns i fun n2 => { n2 with y := y0 }) i -
                heightAt fns i) / 2 })
          (y0 + heightAt (modifyAt sns i fun n => { n with y := y0 }) i + gap)
          rest i hrest
        unfold centered
        intro sn hsn fn hfn
        rw [Option.mem_def, hu.1, get?_modifyAt, if_pos rfl] at hsn
        rw [Option.mem_def, hu.2, get?_modifyAt, if_pos rfl] at hfn
        cases hsg : sns.get? i with
        | none => rw [hsg] at hsn; cases hsn
        | some sn0 =>
            rw [hsg] at hsn
            cases hfg : fns.get? i with
            | none => rw [hfg] at hfn; cases hfn
            | some fn0 =>
                rw [hfg] at hfn
                have hh : heightAt (modifyAt sns i
                    fun n2 => { n2 with y := y0 }) i = sn0.height := by
                  unfold heightAt
                  rw [get?_modifyAt, if_pos rfl, hsg]
                  rfl
                have hfh : heightAt fns i = fn0.height := by
                  unfold heightAt
                  rw [hfg]
                  rfl
                have hsn' : { sn0 with y := y0 } = sn := by
                  simpa using hsn
                have hfn' : { fn0 with y := y0 +
                    (heightAt (modifyAt sns i fun n2 => { n2 with y := y0 }) i -
                      heightAt fns i) / 2 } = fn := by
                  simpa using hfn
                rw [← hsn', ← hfn', hh, hfh]
                dsimp only
                ring
      · have hij : ¬j = i := fun hc => hnd.1 (hc ▸ hir)
        exact ihr _ _ _ hnd.2 hir

theorem assignYScen_eq_foldLevels (m : List (ℕ × List ℕ)) (vmargin gap : ℚ)
    (sns fns : List NodeData) :
    assignYScen m vmargin gap sns fns =
      foldLevels m vmargin gap (sortKeys (m.map Prod.fst)) (sns, fns) := rfl

theorem foldLevels_cons (m : List (ℕ × List ℕ)) (vmargin gap : ℚ) (k : ℕ)
    (ks : List ℕ) (p : List NodeData × List NodeData) :
    foldLevels m vmargin gap (k :: ks) p =
      foldLevels m vmargin gap ks
        (placeLevelScen gap p.1 p.2 vmargin (lookupD m k [])) := rfl

theorem foldLevels_heights (m : List (ℕ × List ℕ)) (vmargin gap : ℚ)
    (ks : List ℕ) (p : List NodeData × List NodeData) (i : ℕ) :
    heightAt (foldLevels m vmargin gap ks p).1 i = heightAt p.1 i ∧
    heightAt (foldLevels m vmargin gap ks p).2 i = heightAt p.2 i := by
  refine foldl_preserve
    (fun acc : List NodeData × List NodeData =>
      heightAt acc.1 i = heightAt p.1 i ∧ heightAt acc.2 i = heightAt p.2 i)
    _ ?_ ks p ⟨rfl, rfl⟩
  intro b d hb
  exact ⟨(placeLevelScen_heights gap b.1 b.2 vmargin (lookupD m d []) i).1.trans
      hb.1,
    (placeLevelScen_heights gap b.1 b.2 vmargin (lookupD m d []) i).2.trans
      hb.2⟩

theorem foldLevels_lengths (m : List (ℕ × List ℕ)) (vmargin gap : ℚ)
    (ks : List ℕ) (p : List NodeData × List NodeData) :
    (foldLevels m vmargin gap ks p).1.length = p.1.length ∧
    (foldLevels m vmargin gap ks p).2.length = p.2.length := by
  refine foldl_preserve
    (fun acc : List NodeData × List NodeData =>
      acc.1.length = p.1.length ∧ acc.2.length = p.2.length)
    _ ?_ ks p ⟨rfl, rfl⟩
  intro b d hb
  exact ⟨(placeLevelScen_lengths gap b.1 b.2 vmargin (lookupD m d [])).1.trans
      hb.1,
    (placeLevelScen_lengths gap b.1 b.2 vmargin (lookupD m d [])).2.trans
      hb.2⟩

theorem foldLevels_get?_not_mem (m : List (ℕ × List ℕ)) (vmargin gap : ℚ)
    (ks : List ℕ) (i : ℕ) (h : ∀ k ∈ ks, i ∉ lookupD m k []) :
    ∀ p : List NodeData × List NodeData,
      (foldLevels m vmargin gap ks p).1.get? i = p.1.get? i ∧
      (foldLevels m vmargin gap ks p).2.get? i = p.2.get? i := by
  induction ks with
  | nil => exact fun p => ⟨rfl, rfl⟩
  | cons k ks ih =>
      intro p
      rw [foldLevels_cons]
      have hk := h k (List.mem_cons_self k ks)
      have hrest := ih fun k2 hk2 => h k2 (List.mem_cons_of_mem k hk2)
      refine ⟨(hrest _).1.trans ?_, (hrest _).2.trans ?_⟩
      · exact (placeLevelScen_get?_not_mem gap p.1 p.2 vmargin _ i hk).1
      · exact (placeLevelScen_get?_not_mem gap p.1 p.2 vmargin _ i hk).2

theorem foldLevels_centered (m : List (ℕ × List ℕ)) (vmargin gap : ℚ)
    (ks : List ℕ) (i d : ℕ) (hks : ks.Nodup) (hd : d ∈ ks)
    (hidx : i ∈ lookupD m d []) (hnd : (lookupD m d []).Nodup)
    (hother : ∀ k ∈ ks, ¬k = d → i ∉ lookupD m k []) :
    ∀ p : List NodeData × List NodeData,
      centered (foldLevels m vmargin gap ks p).1
        (foldLevels m vmargin gap ks p).2 i := by
  induction ks with
  | nil => cases hd
  | cons k ks ih =>
      intro p
      rw [List.nodup_cons] at hks
      rw [foldLevels_cons]
      by_cases hkd : k = d
      · subst hkd
        have hcent := placeLevelScen_centered gap p.1 p.2 vmargin
          (lookupD m k []) i hnd hidx
        have hnotin : ∀ k2 ∈ ks, i ∉ lookupD m k2 [] := by
          intro k2 hk2
          have hne : ¬k2 = k := fun hc => hks.1 (hc ▸ hk2)
          exact hother k2 (List.mem_cons_of_mem k hk2) hne
        have hu := foldLevels_get?_not_mem m vmargin gap ks i hnotin
          (placeLevelScen gap p.1 p.2 vmargin (lookupD m k []))
        unfold centered
        intro sn hsn fn hfn
        rw [Option.mem_def, hu.1] at hsn
        rw [Option.mem_def, hu.2] at hfn
        exact hcent sn (Option.mem_def.mpr hsn) fn (Option.mem_def.mpr hfn)
      · rcases List.mem_cons.mp hd with rfl | hd'
        · exact absurd rfl hkd
        · exact ih hks.2 hd'
            (fun k2 hk2 => hother k2 (List.mem_cons_of_mem k hk2)) _

theorem entry_nodup_of_flatten_nodup (m : List (ℕ × List ℕ)) (d : ℕ)
    (idxs : List ℕ) (hflat : ((m.map Prod.snd).flatten).Nodup)
    (hmem : (d, idxs) ∈ m) : idxs.Nodup := by
  induction m with
  | nil => cases hmem
  | cons p rest ih =>
      rw [List.map_cons, List.flatten_cons, List.nodup_append] at hflat
      rcases List.mem_cons.mp hmem with heq | hmem'
      · rw [show idxs = p.2 from congrArg Prod.snd heq]
        exact hflat.1
      · exact ih hflat.2.1 hmem'

theorem entries_disjoint (m : List (ℕ × List ℕ))
    (hflat : ((m.map Prod.snd).flatten).Nodup) :
    ∀ p ∈ m, ∀ q ∈ m, ¬p = q → ∀ i ∈ p.2, i ∉ q.2 := by
  induction m with
  | nil => intro p hp; cases hp
  | cons a rest ih =>
      rw [List.map_cons, List.flatten_cons, List.nodup_append] at hflat
      intro p hp q hq hpq i hip
      rcases List.mem_cons.mp hp with rfl | hp' <;>
        rcases List.mem_cons.mp hq with rfl | hq'
      · exact absurd rfl hpq
      · intro hiq
        exact hflat.2.2 hip
          (List.mem_flatten.mpr ⟨q.2, List.mem_map.mpr ⟨q, hq', rfl⟩, hiq⟩)
      · intro hiq
        exact hflat.2.2 hiq
          (List.mem_flatten.mpr ⟨p.2, List.mem_map.mpr ⟨p, hp', rfl⟩, hip⟩)
      · exact ih hflat.2.1 p hp' q hq' hpq i hip

theorem not_mem_other_level (m : List (ℕ × List ℕ))
    (hflat : ((m.map Prod.snd).flatten).Nodup) (d : ℕ) (idxs : List ℕ)
    (i k : ℕ) (hmem : (d, idxs) ∈ m) (hi : i ∈ idxs) (hk : ¬k = d) :
    i ∉ lookupD m k [] := by
  unfold lookupD
  cases hlk : lookupA m k with
  | none => simp
  | some v =>
      simp only [Option.getD_some]
      have hq : (k, v) ∈ m := lookupA_mem m k v hlk
      have hne : ¬(d, idxs) = (k, v) := by
        intro hc
        exact hk (congrArg Prod.fst hc).symm
      exact entries_disjoint m hflat (d, idxs) hmem (k, v) hq hne i hi

theorem scenGlobalScale_nonneg (style : SankeyStyle) (st : ScenState) :
    0 ≤ scenGlobalScale style st := by
  simp only [scenGlobalScale]
  split_ifs with h
  · exact le_of_lt (one_div_pos.mpr (lt_trans one_pos h))
  · exact zero_le_one

theorem scenGeometry_nodes (style : SankeyStyle) (st : ScenState)
    (h : ¬st.shadowNodes.length = 0) :
    (scenGeometry style st).1.nodes =
      (assignYScen st.nodesByDepth ((1 - style.vertical_fill) / 2)
        (style.pad / 1000) (scenScaledShadow style st)
        (scenScaledFilled style st)).1 ∧
    (scenGeometry style st).2.nodes =
      (assignYScen st.nodesByDepth ((1 - style.vertical_fill) / 2)
        (style.pad / 1000) (scenScaledShadow style st)
        (scenScaledFilled style st)).2 := by
  unfold scenGeometry scenScaledShadow scenScaledFilled scenGlobalScale
  rw [if_neg h]
  exact ⟨rfl, rfl⟩

/-- C10: in dual-layer layout the two layers have matching node records;
wherever both layers carry a record, the filled height is at most the
shadow height (both layers are multiplied by the same global scale,
computed from shadow heights only), and the filled rectangle's vertical
center coincides exactly with its shadow rectangle's vertical center. -/
theorem scenario_dual_layer (style : SankeyStyle) (scores : String → Option ℚ)
    (root : Option TreeItem)
    (hs : ∀ u, 0 ≤ ((scores u).getD 0 : ℚ) ∧ ((scores u).getD 0 : ℚ) ≤ 1) :
    (generate_scenario_sankey_data style scores root).2.nodes.length =
      (generate_scenario_sankey_data style scores root).1.nodes.length ∧
    ∀ i fn sn,
      (generate_scenario_sankey_data style scores root).2.nodes.get? i =
        some fn →
      (generate_scenario_sankey_data style scores root).1.nodes.get? i =
        some sn →
      fn.height ≤ sn.height ∧
        fn.y + fn.height / 2 = sn.y + sn.height / 2 := by
  obtain ⟨hkeys, hperm, hlen, hhts⟩ :=
    buildScenState_scenInv style scores (fun u => (hs u).2) root
  by_cases hz : (buildScenState style scores root).shadowNodes.length = 0
  · have hout : generate_scenario_sankey_data style scores root =
        (⟨[], []⟩, ⟨[], []⟩) := by
      unfold generate_scenario_sankey_data scenGeometry
      rw [if_pos hz]
    rw [hout]
    refine ⟨rfl, ?_⟩
    intro i fn sn hfn _
    simp at hfn
  · have hgen : generate_scenario_sankey_data style scores root =
        scenGeometry style (buildScenState style scores root) := rfl
    obtain ⟨hn1, hn2⟩ :=
      scenGeometry_nodes style (buildScenState style scores root) hz
    rw [hgen, hn1, hn2]
    set st := buildScenState style scores root with hstdef
    set SH := scenScaledShadow style st with hSH
    set FI := scenScaledFilled style st with hFI
    have hs0 : 0 ≤ scenGlobalScale style st := scenGlobalScale_nonneg _ _
    have hlsh : SH.length = st.shadowNodes.length := by
      rw [hSH]
      unfold scenScaledShadow
      rw [List.length_map, assignX_length]
    have hlfi : FI.length = st.filledNodes.length := by
      rw [hFI]
      unfold scenScaledFilled
      rw [List.length_map, assignX_length]
    have hshh : ∀ i, heightAt SH i =
        heightAt st.shadowNodes i * scenGlobalScale style st := by
      intro i
      rw [hSH]
      unfold scenScaledShadow
      rw [heightAt_scaled, assignX_heightAt]
    have hfih : ∀ i, heightAt FI i =
        heightAt st.filledNodes i * scenGlobalScale style st := by
      intro i
      rw [hFI]
      unfold scenScaledFilled
      rw [heightAt_scaled, assignX_heightAt]
    constructor
    · rw [assignYScen_eq_foldLevels,
        (foldLevels_lengths st.nodesByDepth ((1 - style.vertical_fill) / 2)
          (style.pad / 1000) (sortKeys (st.nodesByDepth.map Prod.fst))
          (SH, FI)).1,
        (foldLevels_lengths st.nodesByDepth ((1 - style.vertical_fill) / 2)
          (style.pad / 1000) (sortKeys (st.nodesByDepth.map Prod.fst))
          (SH, FI)).2]
      rw [show (SH, FI).1 = SH from rfl, show (SH, FI).2 = FI from rfl,
        hlsh, hlfi, hlen]
    · intro i fn sn hfn hsn
      rw [assignYScen_eq_foldLevels] at hfn hsn
      have hhe := foldLevels_heights st.nodesByDepth
        ((1 - style.vertical_fill) / 2) (style.pad / 1000)
        (sortKeys (st.nodesByDepth.map Prod.fst)) (SH, FI) i
      have hfnh : fn.height = heightAt FI i := by
        have : heightAt (foldLevels st.nodesByDepth
            ((1 - style.vertical_fill) / 2) (style.pad / 1000)
            (sortKeys (st.nodesByDepth.map Prod.fst)) (SH, FI)).2 i =
            fn.height := by
          unfold heightAt
          rw [hfn]
          rfl
        rw [← this, hhe.2]
      have hsnh : sn.height = heightAt SH i := by
        have : heightAt (foldLevels st.nodesByDepth
            ((1 - style.vertical_fill) / 2) (style.pad / 1000)
            (sortKeys (st.nodesByDepth.map Prod.fst)) (SH, FI)).1 i =
            sn.height := by
          unfold heightAt
          rw [hsn]
          rfl
        rw [← this, hhe.1]
      have hheight : fn.height ≤ sn.height := by
        rw [hfnh, hsnh, hfih i, hshh i]
        exact mul_le_mul_of_nonneg_right (hhts i) hs0
      refine ⟨hheight, ?_⟩
      have hlt : i < st.shadowNodes.length := by
        by_contra hnl
        push_neg at hnl
        have hlen1 : (foldLevels st.nodesByDepth
            ((1 - style.vertical_fill) / 2) (style.pad / 1000)
            (sortKeys (st.nodesByDepth.map Prod.fst)) (SH, FI)).1.length =
            st.shadowNodes.length := by
          rw [(foldLevels_lengths _ _ _ _ _).1]
          rw [show (SH, FI).1 = SH from rfl, hlsh]
        rw [List.get?_eq_none.mpr (by rw [hlen1]; exact hnl)] at hsn
        cases hsn
      have hflatmem : i ∈ (st.nodesByDepth.map Prod.snd).flatten :=
        (hperm.mem_iff).mpr (List.mem_range.mpr hlt)
      rcases List.mem_flatten.mp hflatmem with ⟨l, hl, hil⟩
      rcases List.mem_map.mp hl with ⟨q, hq, rfl⟩
      have hmemq : (q.1, q.2) ∈ st.nodesByDepth := by
        rw [Prod.mk.eta]
        exact hq
      have hksnd : (sortKeys (st.nodesByDepth.map Prod.fst)).Nodup :=
        (sortKeys_perm _).nodup_iff.mpr hkeys
      have hdks : q.1 ∈ sortKeys (st.nodesByDepth.map Prod.fst) :=
        (mem_sortKeys _ _).mpr (List.mem_map.mpr ⟨q, hq, rfl⟩)
      have hlook : lookupD st.nodesByDepth q.1 [] = q.2 :=
        lookupD_eq_of_nodup _ _ _ _ hkeys hmemq
      have hflatnd : ((st.nodesByDepth.map Prod.snd).flatten).Nodup :=
        hperm.nodup_iff.mpr (List.nodup_range _)
      have hidxnd : q.2.Nodup :=
        entry_nodup_of_flatten_nodup st.nodesByDepth q.1 q.2 hflatnd hmemq
      have hother : ∀ k ∈ sortKeys (st.nodesByDepth.map Prod.fst),
          ¬k = q.1 → i ∉ lookupD st.nodesByDepth k [] :=
        fun k _ hk =>
          not_mem_other_level st.nodesByDepth hflatnd q.1 q.2 i k hmemq hil hk
      have hcent := foldLevels_centered st.nodesByDepth
        ((1 - style.vertical_fill) / 2) (style.pad / 1000)
        (sortKeys (st.nodesByDepth.map Prod.fst)) i q.1 hksnd hdks
        (by rw [hlook]; exact hil) (by rw [hlook]; exact hidxnd) hother
        (SH, FI)
      exact hcent sn (Option.mem_def.mpr hsn) fn (Option.mem_def.mpr hfn)

/-- Witness for C10, at the default style, empty score map and empty
tree. -/
theorem scenario_dual_layer_witness :
    (generate_scenario_sankey_data {} (fun _ => none) none).2.nodes.length =
      (generate_scenario_sankey_data {} (fun _ => none) none).1.nodes.length ∧
    ∀ i fn sn,
      (generate_scenario_sankey_data {} (fun _ => none) none).2.nodes.get? i =
        some fn →
      (generate_scenario_sankey_data {} (fun _ => none) none).1.nodes.get? i =
        some sn →
      fn.height ≤ sn.height ∧
        fn.y + fn.height / 2 = sn.y + sn.height / 2 :=
  scenario_dual_layer {} (fun _ => none) none
    (fun _ => by norm_num)

end Mives
